import Mathlib

/-!
# Verification of the wfc_suite computational core

Shallow embedding, translated from the Python sources of the repository:

* `atlas_editor/src/core/transform.py`    — transform algebra (`Transform`)
* `atlas_editor/src/models/{atlas,tile,rule}.py` — editor data model (`Atlas`)
* `atlas_editor/src/core/propagation.py`  — rule propagation
* `wfc_viewer/src/core/tile.py`           — solver-side atlas (`TileAtlas`)
* `wfc_viewer/src/core/wfc_engine.py`     — WFC solver engine (`WFCEngine`)

Modelling conventions:

* Python strings are Lean `String`s; the four side strings `'top'`, `'right'`,
  `'bottom'`, `'left'` are the inductive `Side` (no other side value ever
  reaches the core).
* Python `float` weights only ever get copied, compared and stored (never
  added) in the code under verification, so they are modelled as `Rat`.
* Python `set[str]` is `Finset String` (unordered, extensional, deduplicated).
* A Python function that can raise is `Option`/paired with an error message.
* Mutation is explicit state passing: each method of a mutable class becomes
  a function from the old object value to the new one.
-/

set_option linter.unusedVariables false

namespace WfcSuite

/-- The four sides of a square tile (`Side` in `transform.py` / `rule.py`). -/
inductive Side where
  | top
  | right
  | bottom
  | left
deriving DecidableEq, Repr

/-- `SIDES` from `transform.py`: the fixed iteration order of the sides. -/
def SIDES : List Side := [.top, .right, .bottom, .left]

/-- Flip axis argument of `flip_side` (`'x'` or `'y'` in the Python source). -/
inductive Axis where
  | x
  | y
deriving DecidableEq, Repr

/-- `Transform` (`transform.py`): a tile transformation.  `rotation` is the
Python `int` field (the code only ever stores 0/90/180/270 but the type does
not enforce it, hence `Nat` here). -/
structure Transform where
  rotation : Nat := 0
  flip_x : Bool := false
  flip_y : Bool := false
deriving DecidableEq, Repr

/-- `rotate_side` (`transform.py`): clockwise rotation of a side.  The Python
function raises `ValueError` when `degrees % 360` is not one of 0/90/180/270;
that raise is `none`. -/
def rotate_side (side : Side) (degrees : Nat) : Option Side :=
  match degrees % 360 with
  | 0 => some side
  | 90 => some (match side with
      | .top => .right
      | .right => .bottom
      | .bottom => .left
      | .left => .top)
  | 180 => some (match side with
      | .top => .bottom
      | .right => .left
      | .bottom => .top
      | .left => .right)
  | 270 => some (match side with
      | .top => .left
      | .right => .top
      | .bottom => .right
      | .left => .bottom)
  | _ => none

/-- `flip_side` (`transform.py`): `_FLIP_X_MAP` / `_FLIP_Y_MAP`. -/
def flip_side (side : Side) (axis : Axis) : Side :=
  match axis with
  | .x => match side with
      | .top => .top
      | .right => .left
      | .bottom => .bottom
      | .left => .right
  | .y => match side with
      | .top => .bottom
      | .right => .right
      | .bottom => .top
      | .left => .left

/-- `get_opposite_side` (`transform.py`). -/
def get_opposite_side (side : Side) : Side :=
  match side with
  | .top => .bottom
  | .bottom => .top
  | .left => .right
  | .right => .left

namespace Transform

/-- The identity transform `Transform(0, False, False)`. -/
def identity : Transform := ⟨0, false, false⟩

/-- `Transform.is_identity` (`transform.py`). -/
def is_identity (t : Transform) : Bool :=
  t.rotation == 0 && !t.flip_x && !t.flip_y

/-- `Transform.apply_to_side` (`transform.py`): rotation first, then
`flip_x`, then `flip_y`.  `none` models the `ValueError` raised by
`rotate_side` on an invalid rotation. -/
def apply_to_side (t : Transform) (side : Side) : Option Side :=
  let step1 := if t.rotation != 0 then rotate_side side t.rotation else some side
  match step1 with
  | none => none
  | some s1 =>
    let s2 := if t.flip_x then flip_side s1 .x else s1
    let s3 := if t.flip_y then flip_side s2 .y else s2
    some s3

/-- `Transform.inverse_side` (`transform.py`): first original side in `SIDES`
that `apply_to_side` maps to `side`; the final `ValueError` is `none`. -/
def inverse_side (t : Transform) (side : Side) : Option Side :=
  SIDES.find? (fun original_side => t.apply_to_side original_side == some side)

/-- `Transform.normalize` (`transform.py`): canonical form using only
`flip_x`. -/
def normalize (t : Transform) : Transform :=
  if t.flip_y then
    if t.flip_x then
      ⟨(t.rotation + 180) % 360, false, false⟩
    else
      ⟨(t.rotation + 180) % 360, true, false⟩
  else
    ⟨t.rotation, t.flip_x, t.flip_y⟩

/-- `Transform.inverse` (`transform.py`). -/
def inverse (t : Transform) : Transform :=
  let inv_rotation : Nat := (((360 : Int) - (t.rotation : Int)) % 360).toNat
  let p : Bool × Bool :=
    if inv_rotation == 90 || inv_rotation == 270 then
      (t.flip_y, t.flip_x)
    else
      (t.flip_x, t.flip_y)
  normalize ⟨inv_rotation, p.1, p.2⟩

/-- `Transform.compose` (`transform.py`): `self` first, then `other`;
result normalized. -/
def compose (t other : Transform) : Transform :=
  let p : Bool × Bool :=
    if other.rotation == 90 || other.rotation == 270 then
      (t.flip_y, t.flip_x)
    else
      (t.flip_x, t.flip_y)
  normalize ⟨(t.rotation + other.rotation) % 360,
             xor p.1 other.flip_x, xor p.2 other.flip_y⟩

end Transform

/-- `get_all_transforms(include_identity=True)` (`transform.py`): despite the
docstring's "8", the loops enumerate all 16 `(rotation, flip_x, flip_y)`
combinations, rotation outermost, then `flip_x`, then `flip_y`. -/
def get_all_transforms : List Transform :=
  [0, 90, 180, 270].flatMap (fun rotation =>
    [false, true].flatMap (fun fx =>
      [false, true].map (fun fy => Transform.mk rotation fx fy)))

/-! ## Editor data model (`atlas_editor/src/models`) -/

/-- `Tile` (`models/tile.py`): a tile variant of a base tile. -/
structure Tile where
  id : String
  base_tile_id : String
  rotation : Nat := 0
  flip_x : Bool := false
  flip_y : Bool := false
  enabled : Bool := true
deriving DecidableEq, Repr

/-- `Tile.is_original` (`models/tile.py`). -/
def Tile.is_original (t : Tile) : Bool :=
  t.rotation == 0 && !t.flip_x && !t.flip_y

/-- `AdjacencyRule` (`models/rule.py`).  `weight` is a Python float that the
verified code only copies and stores, modelled as `Rat`. -/
structure AdjacencyRule where
  tile_id : String
  side : Side
  neighbor_id : String
  weight : Rat := 100
  auto_generated : Bool := false
deriving DecidableEq, Repr

/-- `AdjacencyRule.key` (`models/rule.py`): rule identity triple. -/
def AdjacencyRule.key (r : AdjacencyRule) : String × Side × String :=
  (r.tile_id, r.side, r.neighbor_id)

/-- A rule identity triple `(tile_id, side, neighbor_id)`. -/
abbrev RuleKey := String × Side × String

/-- `Atlas` (`models/atlas.py`), restricted to the fields the verified
operations read and write (`tiles` and `rules`; `base_tiles`, `settings` and
the transient `file_path`/`modified` flags are not consulted by
`propagate_rule`/`propagate_all_rules`/`remove_tile`). -/
structure Atlas where
  tiles : List Tile := []
  rules : List AdjacencyRule := []
deriving DecidableEq, Repr

namespace Atlas

/-- `Atlas.get_tile` (`models/atlas.py`): first tile with the given id. -/
def get_tile (a : Atlas) (tile_id : String) : Option Tile :=
  a.tiles.find? (fun t => t.id == tile_id)

/-- `Atlas.get_tiles_for_base` (`models/atlas.py`). -/
def get_tiles_for_base (a : Atlas) (base_id : String) : List Tile :=
  a.tiles.filter (fun t => t.base_tile_id == base_id)

/-- The in-place update performed by `Atlas.add_rule` (`models/atlas.py`) on
the rule list: update the first rule with the same `(tile_id, side,
neighbor_id)` key (overwriting `weight` and `auto_generated`), else append a
new rule. -/
def upsertRule (k : RuleKey) (weight : Rat) (auto_generated : Bool) :
    List AdjacencyRule → List AdjacencyRule
  | [] => [⟨k.1, k.2.1, k.2.2, weight, auto_generated⟩]
  | r :: rest =>
    if r.key = k then
      { r with weight := weight, auto_generated := auto_generated } :: rest
    else
      r :: upsertRule k weight auto_generated rest

/-- `Atlas.add_rule` (`models/atlas.py`) as a state transformer. -/
def add_rule (a : Atlas) (tile_id : String) (side : Side)
    (neighbor_id : String) (weight : Rat) (auto_generated : Bool) : Atlas :=
  { a with rules := upsertRule (tile_id, side, neighbor_id) weight auto_generated a.rules }

/-- `Atlas.remove_auto_rules` (`models/atlas.py`). -/
def remove_auto_rules (a : Atlas) : Atlas :=
  { a with rules := a.rules.filter (fun r => !r.auto_generated) }

/-- `Atlas.remove_tile` (`models/atlas.py`) as a state transformer.  The
returned `Option String` is the `ValueError` message when the Python method
raises; in that case the raise precedes every mutation, so the atlas
component is the unchanged input. -/
def remove_tile (a : Atlas) (tile_id : String) : Atlas × Option String :=
  match a.get_tile tile_id with
  | some t =>
    if t.is_original then
      (a, some "Cannot remove original tile variant. Remove the base tile instead.")
    else
      ({ a with
          tiles := a.tiles.filter (fun t' => t'.id != tile_id),
          rules := a.rules.filter (fun r =>
            r.tile_id != tile_id && r.neighbor_id != tile_id) }, none)
  | none =>
      ({ a with
          tiles := a.tiles.filter (fun t' => t'.id != tile_id),
          rules := a.rules.filter (fun r =>
            r.tile_id != tile_id && r.neighbor_id != tile_id) }, none)

end Atlas

/-! ## Rule propagation (`atlas_editor/src/core/propagation.py`) -/

/-- `_transform_side_between` (`propagation.py`): rewrite a side from
`from_transform`'s frame to `to_transform`'s frame through the base frame.
`none` models the `ValueError` that `inverse_side` can raise. -/
def transform_side_between (side : Side) (from_transform to_transform : Transform) :
    Option Side :=
  match from_transform.inverse_side side with
  | none => none
  | some original_side => to_transform.apply_to_side original_side

/-- The per-source-variant body of the loop in `propagate_rule`
(`propagation.py` lines 48–92), given the source/target tiles of the rule
being propagated: for a sibling `src_variant` of the source, compute the
`(tile_id, side, neighbor_id)` triple of the rule to insert, or `none` when
the variant is the original, the side computation fails, or no stored target
variant's raw `(rotation, flip_x, flip_y)` fields equal the composed target
transform. -/
def propagationTriple (target_variants : List Tile)
    (source_transform target_transform : Transform) (rule_tile_id : String)
    (rule_side : Side) (src_variant : Tile) : Option RuleKey :=
  if src_variant.id = rule_tile_id then
    none
  else
    let src_var_transform : Transform :=
      ⟨src_variant.rotation, src_variant.flip_x, src_variant.flip_y⟩
    let relative_transform := source_transform.inverse.compose src_var_transform
    match transform_side_between rule_side source_transform src_var_transform with
    | none => none
    | some new_side =>
      let target_var_transform := target_transform.compose relative_transform
      match target_variants.find? (fun tv =>
          tv.rotation == target_var_transform.rotation &&
          tv.flip_x == target_var_transform.flip_x &&
          tv.flip_y == target_var_transform.flip_y) with
      | some target_variant => some (src_variant.id, new_side, target_variant.id)
      | none => none

/-- The list of `(tile_id, side, neighbor_id)` triples that `propagate_rule`
(`propagation.py`) inserts for a rule with key `k`, in loop order.  Control
flow in the Python function depends only on the atlas tiles and the rule's
key (its `weight`/`auto_generated` fields are only copied into the created
rules), which this factoring makes explicit. -/
def propagationTriples (tiles : List Tile) (k : RuleKey) : List RuleKey :=
  let a : Atlas := { tiles := tiles }
  match a.get_tile k.1, a.get_tile k.2.2 with
  | some source_tile, some target_tile =>
    let source_variants := a.get_tiles_for_base source_tile.base_tile_id
    let target_variants := a.get_tiles_for_base target_tile.base_tile_id
    let source_transform : Transform :=
      ⟨source_tile.rotation, source_tile.flip_x, source_tile.flip_y⟩
    let target_transform : Transform :=
      ⟨target_tile.rotation, target_tile.flip_x, target_tile.flip_y⟩
    source_variants.filterMap
      (propagationTriple target_variants source_transform target_transform k.1 k.2.1)
  | _, _ => []

/-- `propagate_rule` (`propagation.py`): insert (via `Atlas.add_rule`, with
the rule's weight and `auto_generated=True`) every propagated triple. -/
def propagate_rule (a : Atlas) (rule : AdjacencyRule) : Atlas :=
  (propagationTriples a.tiles rule.key).foldl
    (fun acc k => acc.add_rule k.1 k.2.1 k.2.2 rule.weight true) a

/-- One iteration of the loop in `propagate_all_rules` (`propagation.py`):
the captured Python list holds aliases of the live rule objects, so the rule
record passed to `propagate_rule` is the current rule with that key in the
atlas (rule keys are never mutated, only `weight`/`auto_generated` are). -/
def propagateKeyStep (a : Atlas) (k : RuleKey) : Atlas :=
  match a.rules.find? (fun r => r.key == k) with
  | some rule => propagate_rule a rule
  | none => a

/-- `propagate_all_rules` (`propagation.py`): snapshot the manual rules,
delete every auto-generated rule, then propagate each manual rule in order. -/
def propagate_all_rules (a : Atlas) : Atlas :=
  let manual_keys := (a.rules.filter (fun r => !r.auto_generated)).map AdjacencyRule.key
  manual_keys.foldl propagateKeyStep a.remove_auto_rules

/-! ## Solver-side atlas (`wfc_viewer/src/core/tile.py`)

The viewer's `TileAtlas` keeps `tiles` in a `dict` keyed by variant id and
`rules` in a list, plus two lookup tables built by `build_adjacency_lookup`
that are a pure index of `rules` (forward: key set of
`_adjacency[tile][side]`; reverse: `_reverse_adjacency[side][neighbor]`).
The model keeps the variant list and derives both lookups directly from
`rules`; the solver only consults key sets and membership, never the stored
weights. -/

/-- `TileVariant` (`wfc_viewer/src/core/tile.py`). -/
structure TileVariant where
  id : String
  base_tile_id : String
  rotation : Nat := 0
  flip_x : Bool := false
  flip_y : Bool := false
  enabled : Bool := true
deriving DecidableEq, Repr

/-- `Rule` (`wfc_viewer/src/core/tile.py`). -/
structure Rule where
  tile : String
  side : Side
  neighbor : String
  weight : Rat := 100
  auto : Bool := false
deriving DecidableEq, Repr

/-- `TileAtlas` (`wfc_viewer/src/core/tile.py`). -/
structure TileAtlas where
  tiles : List TileVariant := []
  rules : List Rule := []
deriving DecidableEq, Repr

namespace TileAtlas

/-- Key set of `TileAtlas.get_valid_neighbors(tile_id, side)`: the neighbors
`n` with a rule `(tile_id, side, n)`. -/
def get_valid_neighbors (a : TileAtlas) (tile_id : String) (side : Side) :
    Finset String :=
  ((a.rules.filter (fun r => r.tile == tile_id && r.side == side)).map
    (fun r => r.neighbor)).toFinset

/-- `TileAtlas.get_tiles_allowing_neighbor(side, neighbor_id)`: the tiles `t`
with a rule `(t, side, neighbor_id)`. -/
def get_tiles_allowing_neighbor (a : TileAtlas) (side : Side)
    (neighbor_id : String) : Finset String :=
  ((a.rules.filter (fun r => r.side == side && r.neighbor == neighbor_id)).map
    (fun r => r.tile)).toFinset

/-- `TileAtlas.get_enabled_tile_ids`. -/
def get_enabled_tile_ids (a : TileAtlas) : Finset String :=
  ((a.tiles.filter (fun t => t.enabled)).map (fun t => t.id)).toFinset

end TileAtlas

/-! ## WFC engine (`wfc_viewer/src/core/wfc_engine.py`)

Modelling notes.
* `EngineState`, `CellState` and the engine fields are translated directly;
  the Qt timer, `_step_delay` and signal wiring are GUI plumbing, and signal
  emission is modelled as appending to an `events` trace in emission order.
* `self.atlas` is `Optional` in Python and `None` only before the first
  `initialize`; every verified operation is considered on an engine that has
  an atlas, so the field is total here.
* `self.cells` is a Python dict built in insertion order; it is modelled as
  an association list with the same key order.
* The `while queue` loop of `_propagate` terminates in Python because a
  dequeued cell whose recomputed set equals its current possibilities
  enqueues nothing, and the recomputed set is a pure function of the
  collapsed cells, which only grow; the model makes the loop structurally
  recursive on an explicit fuel argument chosen at every call site large
  enough to never be exhausted on the runs verified here, and every general
  theorem below holds for every fuel value. -/

/-- Canonical enumeration of a possibility set: its elements in increasing
order.  (Implemented with the structurally recursive insertion sort so that
concrete runs reduce inside the kernel; it agrees with any sort of the
set.)  Python iterates a `set` in unspecified order; every place the engine
draws from a set is parameterized by an index into this enumeration, so
quantifying over the index covers each choice the Python code can make. -/
def multisetSorted (m : Multiset String) : List String :=
  Quot.liftOn m (fun l => l.insertionSort (fun a b => a ≤ b))
    (fun l₁ l₂ h =>
      List.eq_of_perm_of_sorted
        ((List.perm_insertionSort _ l₁).trans
          (h.trans (List.perm_insertionSort _ l₂).symm))
        (List.sorted_insertionSort _ l₁) (List.sorted_insertionSort _ l₂))

/-- See `multisetSorted`. -/
def sorted_possibilities (s : Finset String) : List String :=
  multisetSorted s.val

/-- `EngineState` (`wfc_engine.py`). -/
inductive EngineState where
  | idle
  | running
  | paused
  | finished
  | contradiction
deriving DecidableEq, Repr

/-- `CellState` (`wfc_engine.py`). -/
structure CellState where
  x : Int
  y : Int
  possibilities : Finset String := ∅
  collapsed_tile : Option String := none
  locked : Bool := false
deriving DecidableEq

/-- `CellState.is_collapsed` (`wfc_engine.py`). -/
def CellState.is_collapsed (c : CellState) : Bool :=
  c.collapsed_tile.isSome

/-- `CellState.entropy` (`wfc_engine.py`). -/
def CellState.entropy (c : CellState) : Nat :=
  if c.is_collapsed then 0 else c.possibilities.card

/-- One emitted Qt signal of `WFCEngine`, in emission order. -/
inductive Event where
  | cell_collapsed (x y : Int) (tile_id : String)
  | cell_updated (x y : Int)
  | contradiction_found (x y : Int)
  | state_changed (s : EngineState)
  | finished (success : Bool)
  | progress_updated (collapsed : Int) (total : Int)
deriving DecidableEq, Repr

/-- `WFCEngine` (`wfc_engine.py`): the mutable engine state. -/
structure WFCEngine where
  atlas : TileAtlas
  width : Int := 0
  height : Int := 0
  cells : List ((Int × Int) × CellState) := []
  state : EngineState := .idle
  collapsed_count : Int := 0
  total_cells : Int := 0
  events : List Event := []
deriving DecidableEq

namespace WFCEngine

/-- Append one emitted signal to the trace. -/
def emit (e : WFCEngine) (ev : Event) : WFCEngine :=
  { e with events := e.events ++ [ev] }

/-- The `state` property setter (`wfc_engine.py`): assign and emit
`state_changed` only when the value changes. -/
def set_state (e : WFCEngine) (v : EngineState) : WFCEngine :=
  if e.state = v then e
  else { e with state := v, events := e.events ++ [Event.state_changed v] }

/-- `WFCEngine.get_cell` / `self.cells.get((x, y))`. -/
def get_cell (e : WFCEngine) (x y : Int) : Option CellState :=
  (e.cells.find? (fun pc => pc.1 == (x, y))).map (fun pc => pc.2)

/-- Replace the value stored under the first occurrence of a key in an
association list (a Python dict holds each key once). -/
def update_first (pos : Int × Int) (f : CellState → CellState) :
    List ((Int × Int) × CellState) → List ((Int × Int) × CellState)
  | [] => []
  | pc :: rest =>
    if pc.1 = pos then (pc.1, f pc.2) :: rest
    else pc :: update_first pos f rest

/-- In-place mutation of the cell object stored at `(x, y)`. -/
def update_cell (e : WFCEngine) (x y : Int) (f : CellState → CellState) :
    WFCEngine :=
  { e with cells := update_first (x, y) f e.cells }

/-- `WFCEngine._get_neighbors` (`wfc_engine.py`): in-bounds neighbor
positions, in the fixed order left, right, top, bottom. -/
def get_neighbors (e : WFCEngine) (x y : Int) : List (Int × Int) :=
  ([(-1, 0), (1, 0), (0, -1), (0, 1)] : List (Int × Int)).filterMap
    (fun d =>
      let nx := x + d.1
      let ny := y + d.2
      if 0 ≤ nx ∧ nx < e.width ∧ 0 ≤ ny ∧ ny < e.height then some (nx, ny)
      else none)

/-- `WFCEngine._get_neighbors_with_sides` (`wfc_engine.py`). -/
def get_neighbors_with_sides (e : WFCEngine) (x y : Int) :
    List ((Int × Int) × Side) :=
  ([((-1, 0), Side.left), ((1, 0), Side.right),
    ((0, -1), Side.top), ((0, 1), Side.bottom)] :
      List ((Int × Int) × Side)).filterMap
    (fun d =>
      let nx := x + d.1.1
      let ny := y + d.1.2
      if 0 ≤ nx ∧ nx < e.width ∧ 0 ≤ ny ∧ ny < e.height then
        some ((nx, ny), d.2)
      else none)

/-- The constraint loop shared verbatim by `_step` (lines 264–288),
`_propagate` (lines 331–352) and `get_valid_tiles_for_cell` (lines 423–443)
of `wfc_engine.py`: starting from the enabled tile ids, intersect, for every
collapsed neighbor `N` on side `side` of the cell, with the tiles `N` allows
on `opposite(side)` and with the tiles that allow `N` on `side`. -/
def valid_step (e : WFCEngine) (valid : Finset String)
    (nws : (Int × Int) × Side) : Finset String :=
  match e.get_cell nws.1.1 nws.1.2 with
  | none => valid
  | some neighbor =>
    match neighbor.collapsed_tile with
    | none => valid
    | some neighbor_tile =>
      let opposite := get_opposite_side nws.2
      (valid ∩ e.atlas.get_valid_neighbors neighbor_tile opposite) ∩
        e.atlas.get_tiles_allowing_neighbor nws.2 neighbor_tile

/-- See `valid_step`: the whole constraint loop. -/
def compute_valid (e : WFCEngine) (x y : Int) : Finset String :=
  (e.get_neighbors_with_sides x y).foldl (valid_step e)
    e.atlas.get_enabled_tile_ids

/-- The uncollapsed in-bounds neighbors enqueued by `_propagate`. -/
def uncollapsed_neighbor_coords (e : WFCEngine) (x y : Int) :
    List (Int × Int) :=
  (e.get_neighbors_with_sides x y).filterMap (fun nws =>
    match e.get_cell nws.1.1 nws.1.2 with
    | none => none
    | some nn => if nn.is_collapsed then none else some nws.1)

/-- The `while queue` loop of `WFCEngine._propagate` (`wfc_engine.py`),
structurally recursive on fuel. -/
def propagate_loop : Nat → WFCEngine → List (Int × Int) → WFCEngine
  | 0, e, _ => e
  | _, e, [] => e
  | fuel + 1, e, (x, y) :: queue =>
    match e.get_cell x y with
    | none => propagate_loop fuel e queue
    | some cell =>
      if cell.is_collapsed then propagate_loop fuel e queue
      else
        let valid := e.compute_valid x y
        if valid = cell.possibilities then propagate_loop fuel e queue
        else
          let e1 := (e.update_cell x y
            (fun c => { c with possibilities := valid })).emit
              (.cell_updated x y)
          if valid.card = 0 then e1
          else if valid.card = 1 then
            match (sorted_possibilities valid).head? with
            | none => e1
            | some tile =>
              let e2 := e1.update_cell x y
                (fun c => { c with collapsed_tile := some tile })
              let e3 := { e2 with collapsed_count := e2.collapsed_count + 1 }
              let e4 := (e3.emit (.cell_collapsed x y tile)).emit
                (.progress_updated e3.collapsed_count e3.total_cells)
              propagate_loop fuel e4 (queue ++ e4.uncollapsed_neighbor_coords x y)
          else
            propagate_loop fuel e1 (queue ++ e1.uncollapsed_neighbor_coords x y)

/-- Fuel that the bounded `_propagate` loop can never exhaust: each dequeued
position was enqueued by a possibility change, a cell changes at most once
between two auto-collapses, and collapses only grow. -/
def propagate_fuel (e : WFCEngine) : Nat :=
  4 * (e.cells.length + 2) * (e.cells.length + 2) + 8

/-- `WFCEngine._propagate` (`wfc_engine.py`). -/
def propagate (e : WFCEngine) (start_x start_y : Int) : WFCEngine :=
  propagate_loop (propagate_fuel e) e
    (e.uncollapsed_neighbor_coords start_x start_y)

/-- `WFCEngine.lock_cell` (`wfc_engine.py`).  The count guard is evaluated on
the already-mutated cell object, exactly as in the source. -/
def lock_cell (e : WFCEngine) (x y : Int) (tile_id : String) : WFCEngine :=
  match e.get_cell x y with
  | none => e
  | some cell0 =>
    let cell := { cell0 with
      collapsed_tile := some tile_id, locked := true,
      possibilities := {tile_id} }
    let e1 := e.update_cell x y (fun _ => cell)
    let e2 :=
      if !cell.is_collapsed || cell.collapsed_tile != some tile_id then
        { e1 with collapsed_count := e1.collapsed_count + 1 }
      else e1
    let e3 := (e2.emit (.cell_collapsed x y tile_id)).emit
      (.progress_updated e2.collapsed_count e2.total_cells)
    e3.propagate x y

/-- `WFCEngine.unlock_cell` (`wfc_engine.py`). -/
def unlock_cell (e : WFCEngine) (x y : Int) : WFCEngine :=
  match e.get_cell x y with
  | none => e
  | some cell =>
    let was_collapsed := cell.is_collapsed
    let was_contradiction := cell.possibilities.card == 0
    let e1 := e.update_cell x y (fun c => { c with
      locked := false, collapsed_tile := none,
      possibilities := e.atlas.get_enabled_tile_ids })
    let e2 :=
      if was_collapsed then { e1 with collapsed_count := e1.collapsed_count - 1 }
      else e1
    let e3 :=
      if was_collapsed || was_contradiction then
        if e2.state = .finished ∨ e2.state = .contradiction then
          e2.set_state .idle
        else e2
      else e2
    let e4 := (e3.emit (.cell_updated x y)).emit
      (.progress_updated e3.collapsed_count e3.total_cells)
    (e4.get_neighbors x y).foldl (fun acc nxy =>
      match acc.get_cell nxy.1 nxy.2 with
      | none => acc
      | some nc => if nc.is_collapsed then acc.propagate nxy.1 nxy.2 else acc)
      e4

/-- `WFCEngine.initialize` (`wfc_engine.py`). -/
def init_engine (e : WFCEngine) (atlas : TileAtlas) (width height : Int) :
    WFCEngine :=
  let enabled_tiles := atlas.get_enabled_tile_ids
  let cells := (List.range height.toNat).flatMap (fun y =>
    (List.range width.toNat).map (fun x =>
      (((x : Int), (y : Int)),
       ({ x := x, y := y, possibilities := enabled_tiles } : CellState))))
  let e1 := { e with atlas := atlas, width := width, height := height,
                     cells := cells, collapsed_count := 0,
                     total_cells := width * height }
  let e2 := e1.set_state .idle
  e2.emit (.progress_updated 0 e2.total_cells)

/-- `WFCEngine._step` (`wfc_engine.py`).  The two `random.choice` calls are
modelled by the index arguments `cell_choice` and `tile_choice`, reduced
modulo the length of the list the Python code draws from, so quantifying
over them covers every outcome the PRNG can produce; iteration over the
possibility set `valid_now` follows the canonical sorted order. -/
def step_once (e : WFCEngine) (cell_choice tile_choice : Nat) : WFCEngine :=
  match e.cells.find? (fun pc =>
      !pc.2.is_collapsed && pc.2.entropy == 0) with
  | some pc =>
    let e1 := e.set_state .contradiction
    (e1.emit (.contradiction_found pc.1.1 pc.1.2)).emit (.finished false)
  | none =>
    let uncollapsed := e.cells.filter (fun pc => !pc.2.is_collapsed)
    match (uncollapsed.map (fun pc => pc.2.entropy)).min? with
    | none =>
      let e1 := e.set_state .finished
      e1.emit (.finished true)
    | some min_entropy =>
      let candidates := uncollapsed.filter
        (fun pc => pc.2.entropy == min_entropy)
      match candidates[cell_choice % candidates.length]? with
      | none => e
      | some pc =>
        let x := pc.1.1
        let y := pc.1.2
        let valid_now := e.compute_valid x y
        if valid_now.card = 0 then
          let e1 := e.set_state .contradiction
          (e1.emit (.contradiction_found x y)).emit (.finished false)
        else
          match (sorted_possibilities valid_now)[tile_choice % valid_now.card]? with
          | none => e
          | some tile_id =>
            let e1 := e.update_cell x y (fun c => { c with
              collapsed_tile := some tile_id,
              possibilities := {tile_id} })
            let e2 := { e1 with collapsed_count := e1.collapsed_count + 1 }
            let e3 := (e2.emit (.cell_collapsed x y tile_id)).emit
              (.progress_updated e2.collapsed_count e2.total_cells)
            e3.propagate x y

/-- `WFCEngine.step` (`wfc_engine.py`): manual stepping; no-op in the
absorbing states. -/
def step (e : WFCEngine) (cell_choice tile_choice : Nat) : WFCEngine :=
  if e.state = .finished ∨ e.state = .contradiction then e
  else e.step_once cell_choice tile_choice

/-- `WFCEngine.reset` (`wfc_engine.py`): save the locked cells, re-initialize,
re-lock.  A locked cell stores its collapsed tile whenever the cell invariant
holds; a locked cell without one (`lock_cell(x, y, None)` in Python) is
outside the `String`-typed model and is skipped. -/
def reset (e : WFCEngine) : WFCEngine :=
  let locked_cells := e.cells.filterMap (fun pc =>
    if pc.2.locked then pc.2.collapsed_tile.map (fun t => (pc.1, t)) else none)
  let e1 := e.init_engine e.atlas e.width e.height
  locked_cells.foldl (fun acc pt => acc.lock_cell pt.1.1 pt.1.2 pt.2) e1

/-- `WFCEngine.clear_all` (`wfc_engine.py`). -/
def clear_all (e : WFCEngine) : WFCEngine :=
  e.init_engine e.atlas e.width e.height

end WFCEngine

/-- One entry of the list returned by `WFCEngine.validate_grid`: the Python
code appends the message
`f"({x},{y}) '{tile_id}' does not allow '{neighbor_tile}' on {side}"`;
the record carries exactly the interpolated fields. -/
structure Violation where
  x : Int
  y : Int
  tile_id : String
  neighbor_tile : String
  side : Side
deriving DecidableEq, Repr

/-- The neighbor check of `validate_grid` (`wfc_engine.py`): a violation for
one (cell, neighbor) pair when both are collapsed and the directed rule is
absent. -/
def violation_check (e : WFCEngine) (x y : Int) (tile_id : String)
    (nws : (Int × Int) × Side) : Option Violation :=
  match e.get_cell nws.1.1 nws.1.2 with
  | none => none
  | some neighbor =>
    match neighbor.collapsed_tile with
    | none => none
    | some neighbor_tile =>
      if neighbor_tile ∈ e.atlas.get_valid_neighbors tile_id nws.2 then none
      else some ⟨x, y, tile_id, neighbor_tile, nws.2⟩

/-- The per-cell body of the `validate_grid` scan. -/
def validate_cell (e : WFCEngine) (x y : Int) : List Violation :=
  match e.get_cell x y with
  | none => []
  | some cell =>
    match cell.collapsed_tile with
    | none => []
    | some tile_id =>
      (e.get_neighbors_with_sides x y).filterMap (violation_check e x y tile_id)

/-- `WFCEngine.validate_grid` (`wfc_engine.py`): for every collapsed cell of
the grid, scanned row by row, and every collapsed in-bounds neighbor, report
the pair when the directed rule `(tile, side, neighbor)` is absent.  (The
`self.atlas is None` early return cannot occur in the model, where an engine
always carries an atlas.) -/
def WFCEngine.validate_grid (e : WFCEngine) : List Violation :=
  (List.range e.height.toNat).flatMap (fun y =>
    (List.range e.width.toNat).flatMap (fun x =>
      validate_cell e (x : Int) (y : Int)))

/-- A directed adjacency rule `(t, s, n)` exists in the solver atlas. -/
def TileAtlas.has_rule (a : TileAtlas) (t : String) (s : Side) (n : String) :
    Prop :=
  ∃ r ∈ a.rules, r.tile = t ∧ r.side = s ∧ r.neighbor = n

instance (a : TileAtlas) (t : String) (s : Side) (n : String) :
    Decidable (a.has_rule t s n) := by
  unfold TileAtlas.has_rule
  infer_instance

/-- The per-cell invariant from the spec data model: a collapsed cell's
possibility set is the singleton of its tile, and a locked cell is
collapsed. -/
def cell_inv (c : CellState) : Bool :=
  (match c.collapsed_tile with
   | some t => c.possibilities == ({t} : Finset String)
   | none => true) &&
  (!c.locked || c.collapsed_tile.isSome)

/-- The cell invariant, over every cell of the engine. -/
def engine_inv (e : WFCEngine) : Prop :=
  ∀ pc ∈ e.cells, cell_inv pc.2 = true

instance (e : WFCEngine) : Decidable (engine_inv e) := by
  unfold engine_inv
  infer_instance

/-! ## Concrete fixtures

Small atlases and engine runs, used to exhibit concrete behaviours of the
definitions above. -/

/-- Base-tile variant `A` (identity). -/
def tile_A : Tile := { id := "A", base_tile_id := "A" }

/-- Variant `A_r90` of base `A`. -/
def tile_A_r90 : Tile := { id := "A_r90", base_tile_id := "A", rotation := 90 }

/-- Variant `A_r180` of base `A`. -/
def tile_A_r180 : Tile := { id := "A_r180", base_tile_id := "A", rotation := 180 }

/-- Variant `A_fy` of base `A`, stored with the non-canonical transform
`(0, flip_x=False, flip_y=True)` (exactly what
`ensure_tile_variants_for_rule` creates when mirrors are enabled). -/
def tile_A_fy : Tile := { id := "A_fy", base_tile_id := "A", flip_y := true }

/-- Base-tile variant `B` (identity). -/
def tile_B : Tile := { id := "B", base_tile_id := "B" }

/-- Variant `B_r90` of base `B`. -/
def tile_B_r90 : Tile := { id := "B_r90", base_tile_id := "B", rotation := 90 }

/-- Variant `B_fy` of base `B`, stored non-canonically like `tile_A_fy`. -/
def tile_B_fy : Tile := { id := "B_fy", base_tile_id := "B", flip_y := true }

/-- Two manual rules whose keys are each other's propagation images:
`(A, right, A, 100)` and `(A_r180, left, A_r180, 50)`. -/
def atlas_mutual : Atlas :=
  { tiles := [tile_A, tile_A_r180],
    rules := [{ tile_id := "A", side := .right, neighbor_id := "A",
                weight := 100 },
              { tile_id := "A_r180", side := .left, neighbor_id := "A_r180",
                weight := 50 }] }

/-- The S3 atlas of the spec: bases `A`, `B` with their `r90` variants and
one manual rule `(A, right, B, 100)`. -/
def atlas_s3 : Atlas :=
  { tiles := [tile_A, tile_A_r90, tile_B, tile_B_r90],
    rules := [{ tile_id := "A", side := .right, neighbor_id := "B" }] }

/-- Manual rule `(A, top, B, 100)`. -/
def rule_AB_top : AdjacencyRule :=
  { tile_id := "A", side := .top, neighbor_id := "B" }

/-- An atlas whose sibling variants are stored with non-canonical
`flip_y` transforms. -/
def atlas_fy : Atlas :=
  { tiles := [tile_A, tile_A_fy, tile_B, tile_B_fy],
    rules := [rule_AB_top] }

/-- Solver variant `X`. -/
def variant_X : TileVariant := { id := "X", base_tile_id := "X" }

/-- Solver variant `Y`. -/
def variant_Y : TileVariant := { id := "Y", base_tile_id := "Y" }

/-- The S5 solver atlas: variants `X`, `Y`; only rules `(X, right, X)` and
`(X, left, X)`. -/
def atlas_XY : TileAtlas :=
  { tiles := [variant_X, variant_Y],
    rules := [{ tile := "X", side := .right, neighbor := "X" },
              { tile := "X", side := .left, neighbor := "X" }] }

/-- A freshly initialized 2×1 engine over `atlas_XY` (the S5 grid). -/
def engine_2x1 : WFCEngine :=
  WFCEngine.init_engine { atlas := atlas_XY } atlas_XY 2 1

/-- The S5 run: lock `(0,0) = Y`, then one step; the engine reaches
CONTRADICTION at `(1,0)`. -/
def engine_s5 : WFCEngine :=
  (engine_2x1.lock_cell 0 0 "Y").step 0 0

/-- A freshly initialized 3×1 engine over `atlas_XY`. -/
def engine_3x1 : WFCEngine :=
  WFCEngine.init_engine { atlas := atlas_XY } atlas_XY 3 1

/-- A 3×1 contradiction run: lock `(0,0) = Y`, then one step; cell `(1,0)`
has no possibilities, while cell `(2,0)` is uncollapsed with both variants
still possible. -/
def engine_3x1_contra : WFCEngine :=
  (engine_3x1.lock_cell 0 0 "Y").step 0 0

/-- A consistent fully collapsed 2×1 grid: both cells locked to `X`. -/
def engine_xx : WFCEngine :=
  (engine_2x1.lock_cell 0 0 "X").lock_cell 1 0 "X"

/-- An inconsistent fully collapsed 2×1 grid: `X` next to `Y`. -/
def engine_xy : WFCEngine :=
  (engine_2x1.lock_cell 0 0 "X").lock_cell 1 0 "Y"

/-! ## Theorems -/

/-- Claim C4 counterexample: the transform `(0, flip_x=False, flip_y=True)`
is one of the 16 combinations, but composing it with the identity yields its
normalized form `(180, flip_x=True, flip_y=False)`, not the transform
itself, so `t.compose(identity) = t` fails. -/
theorem C4_counterexample :
    (Transform.mk 0 false true) ∈ get_all_transforms ∧
    (Transform.mk 0 false true).compose Transform.identity ≠
      Transform.mk 0 false true := by
  decide

/-- Claim C4, amended: for every one of the 16 transforms `t`,
`t.compose(identity)` and `identity.compose(t)` equal `t.normalize()` (hence
equal `t` itself exactly when `flip_y` is false, i.e. on the 8 canonical
values), and `t.compose(t.inverse())` is the identity transform. -/
theorem C4_unit_inverse_amended :
    ∀ t ∈ get_all_transforms,
      t.compose Transform.identity = t.normalize ∧
      Transform.identity.compose t = t.normalize ∧
      (t.flip_y = false → t.compose Transform.identity = t ∧
        Transform.identity.compose t = t) ∧
      t.compose t.inverse = Transform.identity := by
  decide

/-- Witness for `C4_unit_inverse_amended` at `t = (90, True, False)`. -/
theorem C4_unit_inverse_witness :
    (Transform.mk 90 true false).compose Transform.identity =
      Transform.mk 90 true false ∧
    (Transform.mk 90 true false).compose (Transform.mk 90 true false).inverse =
      Transform.identity := by
  have h := C4_unit_inverse_amended (Transform.mk 90 true false) (by decide)
  exact ⟨(h.2.2.1 rfl).1, h.2.2.2⟩

/-- Claim C5: `normalize` is idempotent on every `Transform`; any two of the
16 transform values with the same action on the four sides normalize to the
same value; and the image of `normalize` on the 16 values has exactly 8
distinct elements, all with `flip_y = false`. -/
theorem C5_normalize_canonical :
    (∀ t : Transform, t.normalize.normalize = t.normalize) ∧
    (∀ t1 ∈ get_all_transforms, ∀ t2 ∈ get_all_transforms,
      (∀ s ∈ SIDES, t1.apply_to_side s = t2.apply_to_side s) →
      t1.normalize = t2.normalize) ∧
    (get_all_transforms.map Transform.normalize).dedup.length = 8 ∧
    (∀ t ∈ get_all_transforms.map Transform.normalize, t.flip_y = false) := by
  refine ⟨?_, by decide, by decide, by decide⟩
  intro t
  rcases t with ⟨r, fx, fy⟩
  cases fx <;> cases fy <;> simp [Transform.normalize]

/-- Witness for `C5_normalize_canonical`: the transforms `(0, False, True)`
and `(180, True, False)` act identically on the sides and normalize to the
same canonical value. -/
theorem C5_normalize_canonical_witness :
    (Transform.mk 0 false true).normalize =
      (Transform.mk 180 true false).normalize :=
  C5_normalize_canonical.2.1 (Transform.mk 0 false true) (by decide)
    (Transform.mk 180 true false) (by decide) (by decide)

namespace WFCEngine

@[simp] theorem emit_cells (e : WFCEngine) (ev : Event) :
    (e.emit ev).cells = e.cells := rfl

@[simp] theorem emit_state (e : WFCEngine) (ev : Event) :
    (e.emit ev).state = e.state := rfl

@[simp] theorem emit_events (e : WFCEngine) (ev : Event) :
    (e.emit ev).events = e.events ++ [ev] := rfl

@[simp] theorem emit_collapsed_count (e : WFCEngine) (ev : Event) :
    (e.emit ev).collapsed_count = e.collapsed_count := rfl

@[simp] theorem get_cell_emit (e : WFCEngine) (ev : Event) (x y : Int) :
    (e.emit ev).get_cell x y = e.get_cell x y := rfl

@[simp] theorem set_state_cells (e : WFCEngine) (v : EngineState) :
    (e.set_state v).cells = e.cells := by
  unfold set_state
  split <;> rfl

@[simp] theorem set_state_state (e : WFCEngine) (v : EngineState) :
    (e.set_state v).state = v := by
  unfold set_state
  split
  · exact ‹e.state = v›
  · rfl

@[simp] theorem update_cell_state (e : WFCEngine) (x y : Int)
    (f : CellState → CellState) : (e.update_cell x y f).state = e.state := rfl

@[simp] theorem update_cell_events (e : WFCEngine) (x y : Int)
    (f : CellState → CellState) : (e.update_cell x y f).events = e.events := rfl

@[simp] theorem update_cell_collapsed_count (e : WFCEngine) (x y : Int)
    (f : CellState → CellState) :
    (e.update_cell x y f).collapsed_count = e.collapsed_count := rfl

@[simp] theorem update_cell_total_cells (e : WFCEngine) (x y : Int)
    (f : CellState → CellState) :
    (e.update_cell x y f).total_cells = e.total_cells := rfl

@[simp] theorem update_cell_atlas (e : WFCEngine) (x y : Int)
    (f : CellState → CellState) :
    (e.update_cell x y f).atlas = e.atlas := rfl

@[simp] theorem update_cell_width (e : WFCEngine) (x y : Int)
    (f : CellState → CellState) :
    (e.update_cell x y f).width = e.width := rfl

@[simp] theorem update_cell_height (e : WFCEngine) (x y : Int)
    (f : CellState → CellState) :
    (e.update_cell x y f).height = e.height := rfl

/-- Chained prefix fact used below. -/
theorem events_prefix_three (l a b c : List Event) :
    l <+: ((l ++ a) ++ b) ++ c :=
  ((List.prefix_append _ _).trans (List.prefix_append _ _)).trans
    (List.prefix_append _ _)

/-- `_propagate` never touches the engine state field. -/
theorem propagate_loop_state (fuel : Nat) :
    ∀ (q : List (Int × Int)) (e : WFCEngine),
      (propagate_loop fuel e q).state = e.state := by
  induction fuel with
  | zero =>
    intro q e
    cases q <;> rfl
  | succ n ih =>
    intro q e
    match q with
    | [] => rfl
    | (x, y) :: queue =>
      rw [propagate_loop]
      split
      · exact ih queue e
      · split
        · exact ih queue e
        · dsimp only
          split
          · exact ih queue e
          · split
            · rfl
            · split
              · split
                · rfl
                · exact ih _ _
              · exact ih _ _

/-- `_propagate` only appends to the event trace. -/
theorem propagate_loop_events_prefix (fuel : Nat) :
    ∀ (q : List (Int × Int)) (e : WFCEngine),
      e.events <+: (propagate_loop fuel e q).events := by
  induction fuel with
  | zero =>
    intro q e
    cases q <;> exact List.prefix_refl _
  | succ n ih =>
    intro q e
    match q with
    | [] => exact List.prefix_refl _
    | (x, y) :: queue =>
      rw [propagate_loop]
      split
      · exact ih queue e
      · split
        · exact ih queue e
        · dsimp only
          split
          · exact ih queue e
          · split
            · exact List.prefix_append _ _
            · split
              · split
                · exact List.prefix_append _ _
                · refine List.IsPrefix.trans ?_ (ih _ _)
                  exact events_prefix_three _ _ _ _
              · refine List.IsPrefix.trans ?_ (ih _ _)
                exact List.prefix_append _ _

end WFCEngine

/-- Claim C8 counterexample: unlocking the out-of-bounds cell `(5,5)` of the
S5 contradiction engine is a complete silent no-op — the engine, including
its event trace, is returned unchanged, and no error is surfaced (the
Python method has no raise path). -/
theorem C8_counterexample :
    engine_s5.get_cell 5 5 = none ∧
    engine_s5.unlock_cell 5 5 = engine_s5 := by
  constructor
  · rfl
  · rfl

/-- Claim C8, amended: removing the identity variant of a base tile raises
`ValueError` and leaves the atlas unchanged, while unlocking an
out-of-bounds cell silently returns with the engine unchanged (no
precondition failure is surfaced). -/
theorem C8_amended :
    (∀ (a : Atlas) (tile_id : String) (t : Tile),
      a.get_tile tile_id = some t → t.is_original = true →
      a.remove_tile tile_id =
        (a, some "Cannot remove original tile variant. Remove the base tile instead.")) ∧
    (∀ (e : WFCEngine) (x y : Int),
      e.get_cell x y = none → e.unlock_cell x y = e) := by
  constructor
  · intro a tile_id t hget horig
    unfold Atlas.remove_tile
    rw [hget]
    simp [horig]
  · intro e x y h
    unfold WFCEngine.unlock_cell
    rw [h]

/-- Witness for `C8_amended`: removing the identity variant `A` of
`atlas_s3` errors and returns the atlas unchanged, and the out-of-bounds
unlock of `(5,5)` on the S5 engine is the identity. -/
theorem C8_amended_witness :
    atlas_s3.remove_tile "A" =
      (atlas_s3, some "Cannot remove original tile variant. Remove the base tile instead.") ∧
    engine_s5.unlock_cell 5 5 = engine_s5 :=
  ⟨C8_amended.1 atlas_s3 "A" tile_A (by decide) (by decide),
   C8_amended.2 engine_s5 5 5 (by rfl)⟩

/-- Specialization of the event-prefix fact to `_propagate`. -/
theorem WFCEngine.propagate_events_prefix (e : WFCEngine) (x y : Int) :
    e.events <+: (e.propagate x y).events :=
  WFCEngine.propagate_loop_events_prefix _ _ _

/-- Claim C10: for every in-bounds `lock_cell(x, y, tile_id)` call, the
count-increment guard is evaluated after `collapsed_tile` has been
assigned, hence is always false: the `cell_collapsed` and
`progress_updated` events that `lock_cell` itself emits (at the next two
positions of the event trace) report the collapsed count from before the
call, even when the cell was previously uncollapsed. -/
theorem C10_lock_cell_stale_progress :
    ∀ (e : WFCEngine) (x y : Int) (tile_id : String),
      (e.get_cell x y).isSome = true →
      ((e.lock_cell x y tile_id).events)[e.events.length]? =
        some (Event.cell_collapsed x y tile_id) ∧
      ((e.lock_cell x y tile_id).events)[e.events.length + 1]? =
        some (Event.progress_updated e.collapsed_count e.total_cells) := by
  intro e x y tile_id hsome
  cases h : e.get_cell x y with
  | none => rw [h] at hsome; simp at hsome
  | some c =>
    unfold WFCEngine.lock_cell
    rw [h]
    dsimp only
    simp only [CellState.is_collapsed, Option.isSome_some, Bool.not_true,
      bne_self_eq_false, Bool.or_self, Bool.false_eq_true, if_false]
    obtain ⟨s, hs⟩ := WFCEngine.propagate_events_prefix _ x y
    rw [← hs]
    simp only [WFCEngine.emit_events, WFCEngine.update_cell_events,
      WFCEngine.update_cell_collapsed_count, WFCEngine.update_cell_total_cells,
      WFCEngine.emit_collapsed_count]
    constructor
    · rw [List.append_assoc, List.append_assoc,
        List.getElem?_append_right (by simp)]
      simp
    · rw [List.append_assoc, List.append_assoc,
        List.getElem?_append_right (by simp)]
      simp

/-- Witness for `C10_lock_cell_stale_progress`: locking `(0,0)` of the fresh
2×1 engine (collapsed count 0) emits `progress_updated(0, 2)`. -/
theorem C10_lock_cell_stale_progress_witness :
    ((engine_2x1.lock_cell 0 0 "X").events)[1]? =
      some (Event.cell_collapsed 0 0 "X") ∧
    ((engine_2x1.lock_cell 0 0 "X").events)[2]? =
      some (Event.progress_updated 0 2) := by
  have h := C10_lock_cell_stale_progress engine_2x1 0 0 "X" (by decide)
  exact ⟨h.1, h.2⟩

/-- `normalize` always clears `flip_y`. -/
theorem Transform.normalize_flip_y (t : Transform) :
    t.normalize.flip_y = false := by
  rcases t with ⟨r, fx, fy⟩
  cases fx <;> cases fy <;> simp [Transform.normalize]

/-- `add_rule` never touches the tile list, so neither does a fold of it. -/
theorem foldl_add_rule_tiles (w : Rat) (b : Bool) :
    ∀ (l : List RuleKey) (acc : Atlas),
      (l.foldl (fun acc k => acc.add_rule k.1 k.2.1 k.2.2 w b) acc).tiles =
        acc.tiles := by
  intro l
  induction l with
  | nil => intro acc; rfl
  | cons hd tl ih => intro acc; exact ih _

/-- Claim C2 counterexample: in `atlas_fy` the sibling `B_fy` of the rule
target is stored with the non-canonical fields `(0, False, True)`, whose
normalization equals the composed target transform
`T_B.compose(relative) = (180, True, False)` computed for the source
sibling `A_fy`; under the claimed after-normalization comparison the lookup
would find `B_fy` and create a propagated rule for `A_fy`, but
`propagate_rule` compares the raw stored fields, finds no match, and leaves
the rule list unchanged. -/
theorem C2_counterexample :
    tile_B_fy ∈ atlas_fy.tiles ∧
    (Transform.mk tile_B_fy.rotation tile_B_fy.flip_x tile_B_fy.flip_y).normalize =
      (Transform.mk tile_B.rotation tile_B.flip_x tile_B.flip_y).compose
        ((Transform.mk tile_A.rotation tile_A.flip_x tile_A.flip_y).inverse.compose
          (Transform.mk tile_A_fy.rotation tile_A_fy.flip_x tile_A_fy.flip_y)) ∧
    (propagate_rule atlas_fy rule_AB_top).rules = [rule_AB_top] := by
  decide

/-- Claim C2, amended: `propagate_rule` never creates tile variants; the
composed target transform is always in canonical form (`flip_y = false`);
the target lookup compares the sibling's raw stored
`(rotation, flip_x, flip_y)` fields with that composed transform, so when no
sibling's raw fields literally equal it the pair is skipped (an equivalent
but non-canonically stored sibling does not match), and every propagated
triple names a target sibling whose raw fields equal the composed
transform. -/
theorem C2_target_lookup_amended :
    (∀ (a : Atlas) (r : AdjacencyRule), (propagate_rule a r).tiles = a.tiles) ∧
    (∀ t u : Transform, (t.compose u).flip_y = false) ∧
    (∀ (tvs : List Tile) (st tt : Transform) (rtid : String) (rside : Side)
        (sv : Tile),
      (∀ tv ∈ tvs,
        ¬(tv.rotation = (tt.compose (st.inverse.compose
              ⟨sv.rotation, sv.flip_x, sv.flip_y⟩)).rotation ∧
          tv.flip_x = (tt.compose (st.inverse.compose
              ⟨sv.rotation, sv.flip_x, sv.flip_y⟩)).flip_x ∧
          tv.flip_y = (tt.compose (st.inverse.compose
              ⟨sv.rotation, sv.flip_x, sv.flip_y⟩)).flip_y)) →
      propagationTriple tvs st tt rtid rside sv = none) ∧
    (∀ (tvs : List Tile) (st tt : Transform) (rtid : String) (rside : Side)
        (sv : Tile) (k : RuleKey),
      propagationTriple tvs st tt rtid rside sv = some k →
      sv.id ≠ rtid ∧ k.1 = sv.id ∧
      ∃ tv ∈ tvs, k.2.2 = tv.id ∧
        tv.rotation = (tt.compose (st.inverse.compose
            ⟨sv.rotation, sv.flip_x, sv.flip_y⟩)).rotation ∧
        tv.flip_x = (tt.compose (st.inverse.compose
            ⟨sv.rotation, sv.flip_x, sv.flip_y⟩)).flip_x ∧
        tv.flip_y = (tt.compose (st.inverse.compose
            ⟨sv.rotation, sv.flip_x, sv.flip_y⟩)).flip_y) := by
  refine ⟨?_, ?_, ?_, ?_⟩
  · intro a r
    unfold propagate_rule
    exact foldl_add_rule_tiles _ _ _ _
  · intro t u
    unfold Transform.compose
    exact Transform.normalize_flip_y _
  · intro tvs st tt rtid rside sv h
    unfold propagationTriple
    split
    · rfl
    · dsimp only
      have hn : tvs.find? (fun tv =>
          tv.rotation == (tt.compose (st.inverse.compose
              ⟨sv.rotation, sv.flip_x, sv.flip_y⟩)).rotation &&
          tv.flip_x == (tt.compose (st.inverse.compose
              ⟨sv.rotation, sv.flip_x, sv.flip_y⟩)).flip_x &&
          tv.flip_y == (tt.compose (st.inverse.compose
              ⟨sv.rotation, sv.flip_x, sv.flip_y⟩)).flip_y) = none := by
        rw [List.find?_eq_none]
        intro tv htv
        simp only [Bool.and_eq_true, beq_iff_eq, and_assoc]
        exact h tv htv
      cases hside : transform_side_between rside st
          ⟨sv.rotation, sv.flip_x, sv.flip_y⟩ with
      | none => rfl
      | some new_side => rw [hn]
  · intro tvs st tt rtid rside sv k hk
    unfold propagationTriple at hk
    split at hk
    · exact absurd hk (by simp)
    · dsimp only at hk
      rename_i hid
      cases hside : transform_side_between rside st
          ⟨sv.rotation, sv.flip_x, sv.flip_y⟩ with
      | none => rw [hside] at hk; exact absurd hk (by simp)
      | some new_side =>
        rw [hside] at hk
        cases hfind : tvs.find? (fun tv =>
            tv.rotation == (tt.compose (st.inverse.compose
                ⟨sv.rotation, sv.flip_x, sv.flip_y⟩)).rotation &&
            tv.flip_x == (tt.compose (st.inverse.compose
                ⟨sv.rotation, sv.flip_x, sv.flip_y⟩)).flip_x &&
            tv.flip_y == (tt.compose (st.inverse.compose
                ⟨sv.rotation, sv.flip_x, sv.flip_y⟩)).flip_y) with
        | none => rw [hfind] at hk; exact absurd hk (by simp)
        | some tv =>
          rw [hfind] at hk
          have hmem := List.mem_of_find?_eq_some hfind
          have hpred := List.find?_some hfind
          simp only [Bool.and_eq_true, beq_iff_eq, and_assoc] at hpred
          obtain ⟨rfl⟩ := Option.some_inj.mp hk
          exact ⟨hid, rfl, tv, hmem, rfl, hpred⟩

/-- Witness for `C2_target_lookup_amended`: for the `atlas_fy` siblings the
composed transform for source sibling `A_fy` matches no stored raw fields,
so the pair is skipped. -/
theorem C2_target_lookup_witness :
    propagationTriple [tile_B, tile_B_fy] Transform.identity
      Transform.identity "A" .top tile_A_fy = none :=
  C2_target_lookup_amended.2.2.1 [tile_B, tile_B_fy] Transform.identity
    Transform.identity "A" .top tile_A_fy (by decide)

/-- Membership in the forward adjacency lookup is existence of the directed
rule `(tile_id, s, n)`. -/
theorem TileAtlas.mem_get_valid_neighbors (a : TileAtlas) (tile_id : String)
    (s : Side) (n : String) :
    n ∈ a.get_valid_neighbors tile_id s ↔ a.has_rule tile_id s n := by
  unfold get_valid_neighbors has_rule
  simp only [List.mem_toFinset, List.mem_map, List.mem_filter,
    Bool.and_eq_true, beq_iff_eq]
  constructor
  · rintro ⟨r, ⟨hr, h1, h2⟩, h3⟩
    exact ⟨r, hr, h1, h2, h3⟩
  · rintro ⟨r, hr, h1, h2, h3⟩
    exact ⟨r, ⟨hr, h1, h2⟩, h3⟩

/-- Membership in the reverse adjacency lookup is existence of the directed
rule `(t, s, neighbor_id)`. -/
theorem TileAtlas.mem_get_tiles_allowing (a : TileAtlas) (s : Side)
    (neighbor_id : String) (t : String) :
    t ∈ a.get_tiles_allowing_neighbor s neighbor_id ↔
      a.has_rule t s neighbor_id := by
  unfold get_tiles_allowing_neighbor has_rule
  simp only [List.mem_toFinset, List.mem_map, List.mem_filter,
    Bool.and_eq_true, beq_iff_eq]
  constructor
  · rintro ⟨r, ⟨hr, h1, h2⟩, h3⟩
    exact ⟨r, hr, h3, h1, h2⟩
  · rintro ⟨r, hr, h3, h1, h2⟩
    exact ⟨r, ⟨hr, h1, h2⟩, h3⟩

/-- One constraint step keeps only tiles passing both directed-rule lookups
for a collapsed neighbor. -/
theorem valid_step_spec (e : WFCEngine) (valid : Finset String)
    (nws : (Int × Int) × Side) (T : String)
    (h : T ∈ WFCEngine.valid_step e valid nws) :
    T ∈ valid ∧
    (∀ c N, e.get_cell nws.1.1 nws.1.2 = some c →
      c.collapsed_tile = some N →
      T ∈ e.atlas.get_valid_neighbors N (get_opposite_side nws.2) ∧
      T ∈ e.atlas.get_tiles_allowing_neighbor nws.2 N) := by
  unfold WFCEngine.valid_step at h
  cases hc : e.get_cell nws.1.1 nws.1.2 with
  | none =>
    rw [hc] at h
    exact ⟨h, fun c N h1 _ => absurd h1 (by simp)⟩
  | some c0 =>
    rw [hc] at h
    dsimp only at h
    cases ht : c0.collapsed_tile with
    | none =>
      rw [ht] at h
      refine ⟨h, fun c N h1 h2 => ?_⟩
      cases h1
      rw [ht] at h2
      cases h2
    | some N0 =>
      rw [ht] at h
      dsimp only at h
      have h1 := Finset.mem_of_mem_inter_left (Finset.mem_of_mem_inter_left h)
      have h2 := Finset.mem_of_mem_inter_right (Finset.mem_of_mem_inter_left h)
      have h3 := Finset.mem_of_mem_inter_right h
      refine ⟨h1, fun c N hcell hcol => ?_⟩
      cases hcell
      rw [ht] at hcol
      cases hcol
      exact ⟨h2, h3⟩

/-- Membership in the folded constraint loop implies membership in every
per-neighbor constraint. -/
theorem mem_foldl_valid_step (e : WFCEngine) :
    ∀ (l : List ((Int × Int) × Side)) (init : Finset String) (T : String),
      T ∈ l.foldl (WFCEngine.valid_step e) init →
      T ∈ init ∧
      ∀ nws ∈ l, ∀ c N, e.get_cell nws.1.1 nws.1.2 = some c →
        c.collapsed_tile = some N →
        T ∈ e.atlas.get_valid_neighbors N (get_opposite_side nws.2) ∧
        T ∈ e.atlas.get_tiles_allowing_neighbor nws.2 N := by
  intro l
  induction l with
  | nil =>
    intro init T h
    exact ⟨h, by simp⟩
  | cons hd tl ih =>
    intro init T h
    obtain ⟨h1, h2⟩ := ih _ T h
    obtain ⟨h0, h3⟩ := valid_step_spec e init hd T h1
    refine ⟨h0, ?_⟩
    intro nws hmem c N hc hN
    rcases List.mem_cons.mp hmem with rfl | hmem'
    · exact h3 c N hc hN
    · exact h2 nws hmem' c N hc hN

/-- Claim C3: in the solver's constraint computation — the loop shared by
the per-step re-derivation (`_step`), breadth-first propagation
(`_propagate`) and `get_valid_tiles_for_cell`, embedded here as
`compute_valid` — a candidate tile `T` stays in a cell's valid set only if,
for every collapsed neighbor `N` on side `S` of the cell, both directed
rules `(T, S, N)` and `(N, opposite(S), T)` exist in the atlas. -/
theorem C3_both_rules_required :
    ∀ (e : WFCEngine) (x y : Int) (T : String),
      T ∈ e.compute_valid x y →
      ∀ nws ∈ e.get_neighbors_with_sides x y,
        ∀ c N, e.get_cell nws.1.1 nws.1.2 = some c →
          c.collapsed_tile = some N →
          e.atlas.has_rule T nws.2 N ∧
          e.atlas.has_rule N (get_opposite_side nws.2) T := by
  intro e x y T h nws hmem c N hc hN
  obtain ⟨-, h2⟩ := mem_foldl_valid_step e _ _ T h
  obtain ⟨ha, hb⟩ := h2 nws hmem c N hc hN
  exact ⟨(TileAtlas.mem_get_tiles_allowing _ _ _ _).mp hb,
         (TileAtlas.mem_get_valid_neighbors _ _ _ _).mp ha⟩

/-- Witness for `C3_both_rules_required`: in the fully collapsed `X`/`X`
grid, tile `X` is valid at `(1,0)` against its collapsed neighbor `X` on
the left, so both directed rules exist. -/
theorem C3_both_rules_required_witness :
    TileAtlas.has_rule engine_xx.atlas "X" .left "X" ∧
    TileAtlas.has_rule engine_xx.atlas "X" .right "X" :=
  C3_both_rules_required engine_xx 1 0 "X" (by decide) ((0, 0), .left)
    (by decide)
    { x := 0, y := 0, possibilities := {"X"}, collapsed_tile := some "X",
      locked := true }
    "X" (by decide) (by decide)

/-- The neighbor check reports nothing exactly when every collapsed state of
the neighbor passes the directed-rule lookup. -/
theorem violation_check_eq_none_iff (e : WFCEngine) (x y : Int) (tid : String)
    (nws : (Int × Int) × Side) :
    violation_check e x y tid nws = none ↔
    (∀ nc, e.get_cell nws.1.1 nws.1.2 = some nc →
      ∀ N, nc.collapsed_tile = some N →
      N ∈ e.atlas.get_valid_neighbors tid nws.2) := by
  unfold violation_check
  cases hc : e.get_cell nws.1.1 nws.1.2 with
  | none =>
    constructor
    · intro _ nc h
      cases h
    · intro _
      rfl
  | some nc0 =>
    dsimp only
    cases ht : nc0.collapsed_tile with
    | none =>
      constructor
      · intro _ nc hnc N hN
        cases hnc
        rw [ht] at hN
        cases hN
      · intro _
        rfl
    | some N0 =>
      dsimp only
      by_cases hmem : N0 ∈ e.atlas.get_valid_neighbors tid nws.2
      · rw [if_pos hmem]
        constructor
        · intro _ nc hnc N hN
          cases hnc
          rw [ht] at hN
          cases hN
          exact hmem
        · intro _
          rfl
      · rw [if_neg hmem]
        constructor
        · intro h
          cases h
        · intro hall
          exact absurd (hall nc0 rfl N0 ht) hmem

/-- The per-cell validation is empty exactly when every collapsed neighbor
of a collapsed cell passes the directed-rule lookup. -/
theorem validate_cell_eq_nil_iff (e : WFCEngine) (x y : Int) :
    validate_cell e x y = [] ↔
    (∀ cell, e.get_cell x y = some cell →
      ∀ T, cell.collapsed_tile = some T →
      ∀ nws ∈ e.get_neighbors_with_sides x y,
        ∀ nc, e.get_cell nws.1.1 nws.1.2 = some nc →
        ∀ N, nc.collapsed_tile = some N →
        N ∈ e.atlas.get_valid_neighbors T nws.2) := by
  unfold validate_cell
  cases hc : e.get_cell x y with
  | none =>
    constructor
    · intro _ cell h
      cases h
    · intro _
      rfl
  | some cell0 =>
    dsimp only
    cases ht : cell0.collapsed_tile with
    | none =>
      constructor
      · intro _ cell hcell
        cases hcell
        intro T hT
        rw [ht] at hT
        cases hT
      · intro _
        rfl
    | some T0 =>
      dsimp only
      rw [List.filterMap_eq_nil_iff]
      constructor
      · intro h cell hcell T hT nws hnws nc hnc N hN
        cases hcell
        rw [ht] at hT
        cases hT
        exact (violation_check_eq_none_iff e x y T0 nws).mp (h nws hnws) nc hnc N hN
      · intro h nws hnws
        exact (violation_check_eq_none_iff e x y T0 nws).mpr
          (fun nc hnc N hN => h cell0 rfl T0 ht nws hnws nc hnc N hN)

/-- A failing pair contributes its violation to the per-cell report. -/
theorem mem_validate_cell_of (e : WFCEngine) (x y : Int) (cell : CellState)
    (T : String) (nws : (Int × Int) × Side) (nc : CellState) (N : String)
    (hcell : e.get_cell x y = some cell) (hT : cell.collapsed_tile = some T)
    (hnws : nws ∈ e.get_neighbors_with_sides x y)
    (hnc : e.get_cell nws.1.1 nws.1.2 = some nc)
    (hN : nc.collapsed_tile = some N)
    (hmem : N ∉ e.atlas.get_valid_neighbors T nws.2) :
    (⟨x, y, T, N, nws.2⟩ : Violation) ∈ validate_cell e x y := by
  unfold validate_cell
  rw [hcell]
  dsimp only
  rw [hT]
  dsimp only
  rw [List.mem_filterMap]
  refine ⟨nws, hnws, ?_⟩
  unfold violation_check
  rw [hnc]
  dsimp only
  rw [hN]
  dsimp only
  rw [if_neg hmem]

/-- Claim C6: `validate_grid` returns the empty list iff, for every ordered
pair of adjacent collapsed grid cells (tile `T` at an in-range position,
collapsed neighbor `N` on side `s`), the directed rule `(T, s, N)` exists;
and whenever such a rule is missing, a violation carrying exactly that
position, tile, neighbor and side is in the returned list. -/
theorem C6_validate_grid_iff :
    ∀ e : WFCEngine,
      (e.validate_grid = [] ↔
        ∀ y ∈ List.range e.height.toNat, ∀ x ∈ List.range e.width.toNat,
          ∀ cell, e.get_cell (x : Int) (y : Int) = some cell →
          ∀ T, cell.collapsed_tile = some T →
          ∀ nws ∈ e.get_neighbors_with_sides (x : Int) (y : Int),
            ∀ nc, e.get_cell nws.1.1 nws.1.2 = some nc →
            ∀ N, nc.collapsed_tile = some N →
            e.atlas.has_rule T nws.2 N) ∧
      (∀ y ∈ List.range e.height.toNat, ∀ x ∈ List.range e.width.toNat,
        ∀ cell, e.get_cell (x : Int) (y : Int) = some cell →
        ∀ T, cell.collapsed_tile = some T →
        ∀ nws ∈ e.get_neighbors_with_sides (x : Int) (y : Int),
          ∀ nc, e.get_cell nws.1.1 nws.1.2 = some nc →
          ∀ N, nc.collapsed_tile = some N →
          ¬e.atlas.has_rule T nws.2 N →
          (⟨(x : Int), (y : Int), T, N, nws.2⟩ : Violation) ∈
            e.validate_grid) := by
  intro e
  constructor
  · unfold WFCEngine.validate_grid
    rw [List.flatMap_eq_nil_iff]
    constructor
    · intro h y hy x hx cell hcell T hT nws hnws nc hnc N hN
      have h2 := h y hy
      rw [List.flatMap_eq_nil_iff] at h2
      exact (TileAtlas.mem_get_valid_neighbors _ _ _ _).mp
        ((validate_cell_eq_nil_iff e x y).mp (h2 x hx)
          cell hcell T hT nws hnws nc hnc N hN)
    · intro h y hy
      rw [List.flatMap_eq_nil_iff]
      intro x hx
      exact (validate_cell_eq_nil_iff e x y).mpr
        (fun cell hcell T hT nws hnws nc hnc N hN =>
          (TileAtlas.mem_get_valid_neighbors _ _ _ _).mpr
            (h y hy x hx cell hcell T hT nws hnws nc hnc N hN))
  · intro y hy x hx cell hcell T hT nws hnws nc hnc N hN hnorule
    unfold WFCEngine.validate_grid
    rw [List.mem_flatMap]
    refine ⟨y, hy, ?_⟩
    rw [List.mem_flatMap]
    refine ⟨x, hx, ?_⟩
    exact mem_validate_cell_of e x y cell T nws nc N hcell hT hnws hnc hN
      (fun contra =>
        hnorule ((TileAtlas.mem_get_valid_neighbors _ _ _ _).mp contra))

/-- Witness for `C6_validate_grid_iff`: in the `X`/`Y` grid the rule
`(X, right, Y)` is missing, and the corresponding violation is reported. -/
theorem C6_validate_grid_witness :
    (⟨0, 0, "X", "Y", .right⟩ : Violation) ∈ engine_xy.validate_grid :=
  (C6_validate_grid_iff engine_xy).2 0 (by decide) 0 (by decide)
    ⟨0, 0, {"X"}, some "X", true⟩ (by decide) "X" rfl
    ((1, 0), .right) (by decide)
    ⟨1, 0, {"Y"}, some "Y", true⟩ (by decide) "Y" rfl (by decide)

/-- The re-propagation fold at the end of `unlock_cell` never changes the
engine state field. -/
theorem foldl_repropagate_state :
    ∀ (l : List (Int × Int)) (acc : WFCEngine),
      (l.foldl (fun acc nxy =>
        match acc.get_cell nxy.1 nxy.2 with
        | none => acc
        | some nc => if nc.is_collapsed then acc.propagate nxy.1 nxy.2 else acc)
        acc).state = acc.state := by
  intro l
  induction l with
  | nil =>
    intro acc
    rfl
  | cons hd tl ih =>
    intro acc
    rw [List.foldl_cons]
    refine (ih _).trans ?_
    dsimp only
    cases hc : acc.get_cell hd.1 hd.2 with
    | none => rfl
    | some nc =>
      dsimp only
      split
      · exact WFCEngine.propagate_loop_state _ _ _
      · rfl

/-- Claim C7 counterexample: in the 3×1 contradiction run the in-bounds cell
`(2,0)` is uncollapsed with a nonempty possibility set; unlocking it leaves
the engine in CONTRADICTION, not IDLE.  Moreover, after the S5 recovery
`unlock_cell(0,0)` the other cell `(1,0)` still has the empty possibility
set, not the full enabled set. -/
theorem C7_counterexample :
    (engine_3x1_contra.get_cell 2 0).isSome = true ∧
    engine_3x1_contra.state = .contradiction ∧
    (engine_3x1_contra.unlock_cell 2 0).state = .contradiction ∧
    ((engine_s5.unlock_cell 0 0).get_cell 1 0).map CellState.possibilities =
      some (∅ : Finset String) ∧
    engine_s5.atlas.get_enabled_tile_ids ≠ (∅ : Finset String) := by
  decide

/-- Claim C7, amended: with the engine in FINISHED or CONTRADICTION,
`unlock_cell(x, y)` on an in-bounds cell transitions the state back to IDLE
exactly when the unlocked cell was collapsed or had an empty possibility
set, and leaves the state unchanged otherwise; from the S5 contradiction,
`unlock_cell(0,0)` yields IDLE with cell `(0,0)` restored to the full
enabled set, while cell `(1,0)` keeps its empty possibility set. -/
theorem C7_unlock_amended :
    (∀ (e : WFCEngine) (x y : Int) (cell : CellState),
      e.get_cell x y = some cell →
      e.state = .finished ∨ e.state = .contradiction →
      ((cell.is_collapsed = true ∨ cell.possibilities.card = 0 →
        (e.unlock_cell x y).state = .idle) ∧
       (cell.is_collapsed = false → cell.possibilities.card ≠ 0 →
        (e.unlock_cell x y).state = e.state))) ∧
    (engine_s5.unlock_cell 0 0).state = .idle ∧
    ((engine_s5.unlock_cell 0 0).get_cell 0 0).map CellState.possibilities =
      some engine_s5.atlas.get_enabled_tile_ids ∧
    ((engine_s5.unlock_cell 0 0).get_cell 1 0).map CellState.possibilities =
      some (∅ : Finset String) := by
  refine ⟨?_, by decide, by decide, by decide⟩
  intro e x y cell hcell hstate
  unfold WFCEngine.unlock_cell
  rw [hcell]
  dsimp only
  rw [foldl_repropagate_state]
  simp only [WFCEngine.emit_state, apply_ite WFCEngine.state,
    WFCEngine.set_state_state, WFCEngine.update_cell_state, ite_self]
  constructor
  · intro h1
    have hb : (cell.is_collapsed || (cell.possibilities.card == 0)) = true := by
      rcases h1 with h1 | h1 <;> simp [h1]
    rw [if_pos hb, if_pos hstate]
  · intro h1 h2
    rw [if_neg (by simp [h1, h2])]

/-- Witness for `C7_unlock_amended`: unlocking the collapsed cell `(0,0)` of
the S5 contradiction engine yields IDLE. -/
theorem C7_unlock_witness :
    (engine_s5.unlock_cell 0 0).state = .idle := by
  have h := C7_unlock_amended.1 engine_s5 0 0
      ⟨0, 0, {"Y"}, some "Y", true⟩ (by decide) (Or.inr (by decide))
  exact h.1 (Or.inl (by decide))

/-- The canonical enumeration has the same members as the multiset. -/
theorem mem_multisetSorted (m : Multiset String) (t : String) :
    t ∈ multisetSorted m ↔ t ∈ m := by
  refine Quotient.inductionOn m (fun l => ?_)
  show t ∈ l.insertionSort (fun a b => a ≤ b) ↔ t ∈ (l : Multiset String)
  rw [List.Perm.mem_iff (List.perm_insertionSort _ l)]
  simp

/-- A singleton possibility set is pinned down by its enumeration head. -/
theorem eq_singleton_of_sorted_head (valid : Finset String) (t : String)
    (hcard : valid.card = 1)
    (hh : (sorted_possibilities valid).head? = some t) :
    valid = {t} := by
  obtain ⟨a, ha⟩ := Finset.card_eq_one.mp hcard
  subst ha
  have hm : t ∈ sorted_possibilities ({a} : Finset String) :=
    List.mem_of_mem_head? (by rw [hh]; exact Option.mem_some_self t)
  have : t ∈ ({a} : Finset String) :=
    (mem_multisetSorted _ t).mp hm
  rw [Finset.mem_singleton.mp this]

/-- Transfer of the cell invariant along equal cell lists. -/
theorem engine_inv_congr {e e' : WFCEngine} (h : e'.cells = e.cells)
    (hi : engine_inv e) : engine_inv e' := by
  intro pc hpc
  exact hi pc (h ▸ hpc)

/-- Updating the first entry of a key preserves the invariant when the
update preserves it on the entry the lookup returns. -/
theorem update_first_inv (pos : Int × Int) (f : CellState → CellState) :
    ∀ (l : List ((Int × Int) × CellState)),
      (∀ pc ∈ l, cell_inv pc.2 = true) →
      (∀ c, (l.find? (fun pc => pc.1 == pos)).map (fun pc => pc.2) = some c →
            cell_inv c = true → cell_inv (f c) = true) →
      ∀ pc ∈ WFCEngine.update_first pos f l, cell_inv pc.2 = true := by
  intro l
  induction l with
  | nil =>
    intro _ _ pc hpc
    simp [WFCEngine.update_first] at hpc
  | cons hd tl ih =>
    intro hall hf pc hpc
    unfold WFCEngine.update_first at hpc
    by_cases hpos : hd.1 = pos
    · rw [if_pos hpos] at hpc
      rcases List.mem_cons.mp hpc with rfl | hmem
      · refine hf hd.2 ?_ (hall hd (List.mem_cons_self _ _))
        rw [List.find?_cons_of_pos _ (by simp [hpos])]
        rfl
      · exact hall pc (List.mem_cons_of_mem _ hmem)
    · rw [if_neg hpos] at hpc
      rcases List.mem_cons.mp hpc with rfl | hmem
      · exact hall pc (List.mem_cons_self _ _)
      · refine ih (fun pc' h' => hall pc' (List.mem_cons_of_mem _ h')) ?_ pc hmem
        intro c hc hcinv
        refine hf c ?_ hcinv
        rw [List.find?_cons_of_neg _ (by simp [hpos])]
        exact hc

/-- Engine-level version of `update_first_inv`. -/
theorem engine_inv_update_of (e : WFCEngine) (x y : Int)
    (f : CellState → CellState) (hi : engine_inv e)
    (h : ∀ c, e.get_cell x y = some c →
      cell_inv c = true → cell_inv (f c) = true) :
    engine_inv (e.update_cell x y f) := by
  intro pc hpc
  exact update_first_inv (x, y) f e.cells hi (fun c hc => h c hc) pc hpc

/-- Looking up the key just updated yields the mapped cell. -/
theorem find?_update_first_self (pos : Int × Int) (f : CellState → CellState) :
    ∀ l : List ((Int × Int) × CellState),
      (WFCEngine.update_first pos f l).find? (fun pc => pc.1 == pos) =
        (l.find? (fun pc => pc.1 == pos)).map (fun pc => (pc.1, f pc.2)) := by
  intro l
  induction l with
  | nil => rfl
  | cons hd tl ih =>
    unfold WFCEngine.update_first
    by_cases hpos : hd.1 = pos
    · rw [if_pos hpos, List.find?_cons_of_pos _ (by simp [hpos]),
        List.find?_cons_of_pos _ (by simp [hpos])]
      rfl
    · rw [if_neg hpos, List.find?_cons_of_neg _ (by simp [hpos]),
        List.find?_cons_of_neg _ (by simp [hpos])]
      exact ih

/-- `get_cell` after `update_cell` at the same position. -/
theorem get_cell_update_self (e : WFCEngine) (x y : Int)
    (f : CellState → CellState) :
    (e.update_cell x y f).get_cell x y = (e.get_cell x y).map f := by
  unfold WFCEngine.get_cell WFCEngine.update_cell
  dsimp only
  rw [find?_update_first_self]
  cases e.cells.find? (fun pc => pc.1 == (x, y)) <;> rfl

/-- Shrinking the possibility set of an uncollapsed cell keeps the
invariant. -/
theorem cell_inv_poss (c : CellState) (valid : Finset String)
    (h : c.collapsed_tile = none) (hc : cell_inv c = true) :
    cell_inv { c with possibilities := valid } = true := by
  unfold cell_inv at *
  rw [h] at hc ⊢
  simpa using hc

/-- Collapsing a cell to the singleton of its tile keeps the invariant. -/
theorem cell_inv_collapse (c : CellState) (t : String) :
    cell_inv { c with collapsed_tile := some t,
                      possibilities := ({t} : Finset String) } = true := by
  simp [cell_inv]

/-- The cell written by `lock_cell` satisfies the invariant. -/
theorem cell_inv_lock (c : CellState) (t : String) :
    cell_inv { c with collapsed_tile := some t, locked := true,
                      possibilities := ({t} : Finset String) } = true := by
  simp [cell_inv]

/-- The cell written by `unlock_cell` satisfies the invariant. -/
theorem cell_inv_unlock (c : CellState) (s : Finset String) :
    cell_inv { c with locked := false, collapsed_tile := none,
                      possibilities := s } = true := by
  simp [cell_inv]

/-- The breadth-first propagation loop preserves the cell invariant. -/
theorem propagate_loop_inv (fuel : Nat) :
    ∀ (q : List (Int × Int)) (e : WFCEngine), engine_inv e →
      engine_inv (WFCEngine.propagate_loop fuel e q) := by
  induction fuel with
  | zero =>
    intro q e h
    cases q <;> exact h
  | succ n ih =>
    intro q e hinv
    match q with
    | [] => exact hinv
    | (x, y) :: queue =>
      rw [WFCEngine.propagate_loop]
      split
      · exact ih queue e hinv
      · rename_i ocell cell hcell
        split
        · exact ih queue e hinv
        · rename_i hcol
          have hnone : cell.collapsed_tile = none := by
            unfold CellState.is_collapsed at hcol
            exact Option.not_isSome_iff_eq_none.mp (by simpa using hcol)
          dsimp only
          have hinv1 : engine_inv ((e.update_cell x y
              (fun c => { c with possibilities := e.compute_valid x y })).emit
                (.cell_updated x y)) := by
            refine engine_inv_update_of e x y _ hinv ?_
            intro c hc hcinv
            rw [hcell] at hc
            cases hc
            exact cell_inv_poss _ _ hnone hcinv
          split
          · exact ih queue e hinv
          · split
            · exact hinv1
            · rename_i hcard0 hcard1
              split
              · rename_i hcard
                split
                · exact hinv1
                · rename_i tile hhead2
                  apply ih
                  refine engine_inv_update_of _ x y _ hinv1 ?_
                  intro c hc hcinv
                  rw [WFCEngine.get_cell_emit, get_cell_update_self, hcell] at hc
                  cases hc
                  dsimp only
                  have hvalid : e.compute_valid x y = {tile} :=
                    eq_singleton_of_sorted_head _ _ hcard hhead2
                  rw [hvalid]
                  exact cell_inv_collapse cell tile
              · apply ih
                exact hinv1

/-- The re-propagation fold of `unlock_cell` preserves the cell invariant. -/
theorem foldl_repropagate_inv :
    ∀ (l : List (Int × Int)) (acc : WFCEngine), engine_inv acc →
      engine_inv (l.foldl (fun acc nxy =>
        match acc.get_cell nxy.1 nxy.2 with
        | none => acc
        | some nc => if nc.is_collapsed then acc.propagate nxy.1 nxy.2 else acc)
        acc) := by
  intro l
  induction l with
  | nil =>
    intro acc h
    exact h
  | cons hd tl ih =>
    intro acc h
    rw [List.foldl_cons]
    refine ih _ ?_
    dsimp only
    cases hc : acc.get_cell hd.1 hd.2 with
    | none => exact h
    | some nc =>
      dsimp only
      split
      · exact propagate_loop_inv _ _ _ h
      · exact h

/-- `lock_cell` preserves the cell invariant. -/
theorem lock_cell_inv (e : WFCEngine) (x y : Int) (tile_id : String)
    (hinv : engine_inv e) : engine_inv (e.lock_cell x y tile_id) := by
  unfold WFCEngine.lock_cell
  cases hc : e.get_cell x y with
  | none => exact hinv
  | some cell0 =>
    dsimp only
    apply propagate_loop_inv
    refine engine_inv_congr ?_ (engine_inv_update_of e x y
      (fun _ => { cell0 with collapsed_tile := some tile_id, locked := true, possibilities := ({tile_id} : Finset String) })
      hinv (fun c _ _ => cell_inv_lock cell0 tile_id))
    simp only [WFCEngine.emit_cells, apply_ite WFCEngine.cells, ite_self]

/-- `unlock_cell` preserves the cell invariant. -/
theorem unlock_cell_inv (e : WFCEngine) (x y : Int)
    (hinv : engine_inv e) : engine_inv (e.unlock_cell x y) := by
  unfold WFCEngine.unlock_cell
  cases hc : e.get_cell x y with
  | none => exact hinv
  | some cell0 =>
    dsimp only
    apply foldl_repropagate_inv
    refine engine_inv_congr ?_ (engine_inv_update_of e x y
      (fun c => { c with locked := false, collapsed_tile := none, possibilities := e.atlas.get_enabled_tile_ids })
      hinv (fun c _ _ => cell_inv_unlock c _))
    simp only [WFCEngine.emit_cells, apply_ite WFCEngine.cells,
      WFCEngine.set_state_cells, ite_self]

/-- `init_engine` establishes the cell invariant outright. -/
theorem init_engine_inv (e : WFCEngine) (atlas : TileAtlas) (w h : Int) :
    engine_inv (e.init_engine atlas w h) := by
  intro pc hpc
  unfold WFCEngine.init_engine at hpc
  simp only [WFCEngine.emit_cells, WFCEngine.set_state_cells] at hpc
  obtain ⟨y, -, hy⟩ := List.mem_flatMap.mp hpc
  obtain ⟨x, -, rfl⟩ := List.mem_map.mp hy
  simp [cell_inv]

/-- `step_once` preserves the cell invariant. -/
theorem step_once_inv (e : WFCEngine) (cc tc : Nat)
    (hinv : engine_inv e) : engine_inv (e.step_once cc tc) := by
  unfold WFCEngine.step_once
  split
  · refine engine_inv_congr ?_ hinv
    simp only [WFCEngine.emit_cells, WFCEngine.set_state_cells]
  · dsimp only
    split
    · refine engine_inv_congr ?_ hinv
      simp only [WFCEngine.emit_cells, WFCEngine.set_state_cells]
    · split
      · exact hinv
      · rename_i pc hpc
        split
        · refine engine_inv_congr ?_ hinv
          simp only [WFCEngine.emit_cells, WFCEngine.set_state_cells]
        · split
          · exact hinv
          · rename_i tile_id hpick
            apply propagate_loop_inv
            refine engine_inv_congr ?_ (engine_inv_update_of e pc.1.1 pc.1.2
              (fun c => { c with collapsed_tile := some tile_id, possibilities := ({tile_id} : Finset String) })
              hinv (fun c _ _ => cell_inv_collapse c tile_id))
            simp only [WFCEngine.emit_cells]

/-- `reset` (re-initialize, then re-lock) preserves the cell invariant. -/
theorem reset_inv (e : WFCEngine) (hinv : engine_inv e) :
    engine_inv e.reset := by
  unfold WFCEngine.reset
  dsimp only
  have : ∀ (l : List ((Int × Int) × String)) (acc : WFCEngine),
      engine_inv acc →
      engine_inv (l.foldl (fun acc pt => acc.lock_cell pt.1.1 pt.1.2 pt.2) acc) := by
    intro l
    induction l with
    | nil => intro acc h; exact h
    | cons hd tl ih =>
      intro acc h
      rw [List.foldl_cons]
      exact ih _ (lock_cell_inv _ _ _ _ h)
  exact this _ _ (init_engine_inv e e.atlas e.width e.height)

/-- Claim C9: every engine operation — initialization, `lock_cell`,
`unlock_cell`, the observation step `_step`, the propagation loop of
`_propagate` (for any fuel and queue), `reset` and `clear_all` — preserves
the cell invariant: a collapsed cell's possibility set is the singleton of
its collapsed tile, and a locked cell is collapsed. -/
theorem C9_cell_invariant :
    ∀ e : WFCEngine, engine_inv e →
      (∀ (atlas : TileAtlas) (w h : Int),
        engine_inv (e.init_engine atlas w h)) ∧
      (∀ (x y : Int) (tile_id : String),
        engine_inv (e.lock_cell x y tile_id)) ∧
      (∀ x y : Int, engine_inv (e.unlock_cell x y)) ∧
      (∀ cell_choice tile_choice : Nat,
        engine_inv (e.step_once cell_choice tile_choice)) ∧
      (∀ (fuel : Nat) (q : List (Int × Int)),
        engine_inv (WFCEngine.propagate_loop fuel e q)) ∧
      engine_inv e.reset ∧
      engine_inv e.clear_all := by
  intro e hinv
  exact ⟨fun atlas w h => init_engine_inv e atlas w h,
         fun x y tid => lock_cell_inv e x y tid hinv,
         fun x y => unlock_cell_inv e x y hinv,
         fun cc tc => step_once_inv e cc tc hinv,
         fun fuel q => propagate_loop_inv fuel q e hinv,
         reset_inv e hinv,
         init_engine_inv e e.atlas e.width e.height⟩

/-- Witness for `C9_cell_invariant`: the invariant holds after locking a
cell of the fresh 2×1 engine (whose initial state satisfies it). -/
theorem C9_cell_invariant_witness :
    engine_inv (engine_2x1.lock_cell 0 0 "X") :=
  (C9_cell_invariant engine_2x1 (by decide)).2.1 0 0 "X"

/-- Claim C1 counterexample: in `atlas_mutual` the two manual rules are each
other's propagation images, so the first `propagate_all_rules` reclassifies
both as auto-generated (the manual set becomes empty and the weight 50 is
overwritten), and a second run deletes every rule: running twice differs
from running once. -/
theorem C1_counterexample :
    (propagate_all_rules (propagate_all_rules atlas_mutual)).rules ≠
      (propagate_all_rules atlas_mutual).rules ∧
    (propagate_all_rules atlas_mutual).rules.filter
      (fun r => !r.auto_generated) = [] := by
  decide

/-- Upserting a key absent from a prefix leaves the prefix untouched. -/
theorem upsertRule_append_of_not_mem (k : RuleKey) (w : Rat) (b : Bool) :
    ∀ (M : List AdjacencyRule), k ∉ M.map AdjacencyRule.key →
    ∀ xs, Atlas.upsertRule k w b (M ++ xs) = M ++ Atlas.upsertRule k w b xs := by
  intro M
  induction M with
  | nil =>
    intro _ xs
    rfl
  | cons hd tl ih =>
    intro hk xs
    have hhd : ¬hd.key = k := by
      intro h
      exact hk (List.mem_map.mpr ⟨hd, List.mem_cons_self _ _, h⟩)
    have htl : k ∉ List.map AdjacencyRule.key tl := by
      intro h
      rcases List.mem_map.mp h with ⟨r, hr, hrk⟩
      exact hk (List.mem_map.mpr ⟨r, List.mem_cons_of_mem _ hr, hrk⟩)
    rw [List.cons_append]
    simp only [Atlas.upsertRule]
    rw [if_neg hhd, ih htl xs, List.cons_append]

/-- Upserting with `auto_generated = true` keeps a list all-auto. -/
theorem upsertRule_all_auto (k : RuleKey) (w : Rat) :
    ∀ xs, (∀ r ∈ xs, r.auto_generated = true) →
    ∀ r ∈ Atlas.upsertRule k w true xs, r.auto_generated = true := by
  intro xs
  induction xs with
  | nil =>
    intro _ r hr
    unfold Atlas.upsertRule at hr
    rcases List.mem_singleton.mp hr with rfl
    rfl
  | cons hd tl ih =>
    intro hall r hr
    unfold Atlas.upsertRule at hr
    split at hr
    · rcases List.mem_cons.mp hr with rfl | hmem
      · rfl
      · exact hall r (List.mem_cons_of_mem _ hmem)
    · rcases List.mem_cons.mp hr with rfl | hmem
      · exact hall r (List.mem_cons_self _ _)
      · exact ih (fun r' h' => hall r' (List.mem_cons_of_mem _ h')) r hmem

/-- Folding `add_rule` over propagated triples that avoid the manual keys
keeps the rule list of the form manual-prefix ++ all-auto suffix. -/
theorem foldl_add_rule_shape (tiles : List Tile) (M : List AdjacencyRule)
    (w : Rat) :
    ∀ (ts : List RuleKey), (∀ t ∈ ts, t ∉ M.map AdjacencyRule.key) →
    ∀ (autos : List AdjacencyRule), (∀ r ∈ autos, r.auto_generated = true) →
    ∃ autos', (∀ r ∈ autos', r.auto_generated = true) ∧
      (ts.foldl (fun acc k => acc.add_rule k.1 k.2.1 k.2.2 w true)
        { tiles := tiles, rules := M ++ autos } : Atlas) =
        { tiles := tiles, rules := M ++ autos' } := by
  intro ts
  induction ts with
  | nil =>
    intro _ autos hautos
    exact ⟨autos, hautos, rfl⟩
  | cons t ts ih =>
    intro hts autos hautos
    rw [List.foldl_cons]
    have hstep : (({ tiles := tiles, rules := M ++ autos } : Atlas).add_rule
        t.1 t.2.1 t.2.2 w true) =
        { tiles := tiles, rules := M ++ Atlas.upsertRule (t.1, t.2.1, t.2.2) w true autos } := by
      unfold Atlas.add_rule
      rw [upsertRule_append_of_not_mem _ _ _ M (hts t (List.mem_cons_self _ _))]
    rw [hstep]
    exact ih (fun t' h' => hts t' (List.mem_cons_of_mem _ h'))
      (Atlas.upsertRule (t.1, t.2.1, t.2.2) w true autos)
      (upsertRule_all_auto _ _ autos hautos)

/-- Looking up a manual key in manual ++ autos finds a manual rule with
that key. -/
theorem find?_key_append (k : RuleKey) :
    ∀ (M autos : List AdjacencyRule), k ∈ M.map AdjacencyRule.key →
    ∃ r₀, r₀ ∈ M ∧ r₀.key = k ∧
      (M ++ autos).find? (fun r => r.key == k) = some r₀ := by
  intro M
  induction M with
  | nil =>
    intro autos hk
    simp at hk
  | cons hd tl ih =>
    intro autos hk
    by_cases hhd : hd.key = k
    · exact ⟨hd, List.mem_cons_self _ _, hhd,
        by rw [List.cons_append, List.find?_cons_of_pos _ (by simp [hhd])]⟩
    · have hk' : k ∈ tl.map AdjacencyRule.key := by
        rcases List.mem_map.mp hk with ⟨r, hr, hrk⟩
        rcases List.mem_cons.mp hr with rfl | hrtl
        · exact absurd hrk hhd
        · exact List.mem_map.mpr ⟨r, hrtl, hrk⟩
      obtain ⟨r₀, h1, h2, h3⟩ := ih autos hk'
      refine ⟨r₀, List.mem_cons_of_mem _ h1, h2, ?_⟩
      rw [List.cons_append, List.find?_cons_of_neg _ (by simp [hhd])]
      exact h3

/-- One `propagate_all_rules` iteration for a manual key keeps the rule list
of the form manual ++ all-auto when its propagated triples avoid the manual
keys. -/
theorem propagateKeyStep_shape (tiles : List Tile) (M : List AdjacencyRule)
    (k : RuleKey) (hk : k ∈ M.map AdjacencyRule.key)
    (hdisjk : ∀ t ∈ propagationTriples tiles k, t ∉ M.map AdjacencyRule.key)
    (autos : List AdjacencyRule) (hautos : ∀ r ∈ autos, r.auto_generated = true) :
    ∃ autos', (∀ r ∈ autos', r.auto_generated = true) ∧
      propagateKeyStep { tiles := tiles, rules := M ++ autos } k =
        { tiles := tiles, rules := M ++ autos' } := by
  obtain ⟨r₀, hr₀M, hr₀k, hfind⟩ := find?_key_append k M autos hk
  unfold propagateKeyStep
  dsimp only
  rw [hfind]
  unfold propagate_rule
  dsimp only
  rw [hr₀k]
  exact foldl_add_rule_shape tiles M r₀.weight (propagationTriples tiles k)
    hdisjk autos hautos

/-- Folding the manual keys keeps the rule list of the form
manual ++ all-auto. -/
theorem foldl_keys_shape (tiles : List Tile) (M : List AdjacencyRule)
    (hdisj : ∀ k ∈ M.map AdjacencyRule.key,
      ∀ t ∈ propagationTriples tiles k, t ∉ M.map AdjacencyRule.key) :
    ∀ (ks : List RuleKey), (∀ k ∈ ks, k ∈ M.map AdjacencyRule.key) →
    ∀ (autos : List AdjacencyRule), (∀ r ∈ autos, r.auto_generated = true) →
    ∃ autos', (∀ r ∈ autos', r.auto_generated = true) ∧
      ks.foldl propagateKeyStep { tiles := tiles, rules := M ++ autos } =
        { tiles := tiles, rules := M ++ autos' } := by
  intro ks
  induction ks with
  | nil =>
    intro _ autos hautos
    exact ⟨autos, hautos, rfl⟩
  | cons k ks ih =>
    intro hks autos hautos
    rw [List.foldl_cons]
    obtain ⟨autos₁, hautos₁, hstep⟩ := propagateKeyStep_shape tiles M k
      (hks k (List.mem_cons_self _ _))
      (hdisj k (hks k (List.mem_cons_self _ _))) autos hautos
    rw [hstep]
    exact ih (fun k' h' => hks k' (List.mem_cons_of_mem _ h')) autos₁ hautos₁

/-- `propagate_all_rules` factors through the tiles and the manual rules. -/
theorem propagate_all_factor (x : Atlas) :
    propagate_all_rules x =
      ((x.rules.filter (fun r => !r.auto_generated)).map AdjacencyRule.key).foldl
        propagateKeyStep
        { tiles := x.tiles,
          rules := x.rules.filter (fun r => !r.auto_generated) } := rfl

/-- Claim C1, amended: provided the manual rules have pairwise distinct keys
and no propagated triple collides with a manual rule's key,
`propagate_all_rules` run twice equals one run, no manual rule is changed or
reclassified, and the whole result is a function of the tile list and the
manual rule set alone.  (The counterexample shows both idempotence and
manual-preservation fail when a propagated key hits a manual rule.) -/
theorem C1_propagate_all_amended :
    ∀ a : Atlas,
      ((a.rules.filter (fun r => !r.auto_generated)).map AdjacencyRule.key).Nodup →
      (∀ k ∈ (a.rules.filter (fun r => !r.auto_generated)).map AdjacencyRule.key,
        ∀ t ∈ propagationTriples a.tiles k,
          t ∉ (a.rules.filter (fun r => !r.auto_generated)).map AdjacencyRule.key) →
      propagate_all_rules (propagate_all_rules a) = propagate_all_rules a ∧
      (propagate_all_rules a).rules.filter (fun r => !r.auto_generated) =
        a.rules.filter (fun r => !r.auto_generated) ∧
      (∀ a2 : Atlas, a2.tiles = a.tiles →
        a2.rules.filter (fun r => !r.auto_generated) =
          a.rules.filter (fun r => !r.auto_generated) →
        propagate_all_rules a2 = propagate_all_rules a) := by
  intro a hnodup hdisj
  have hMfalse : ∀ r ∈ a.rules.filter (fun r => !r.auto_generated),
      r.auto_generated = false := by
    intro r hr
    simpa using List.of_mem_filter hr
  have key3 : ∀ a2 : Atlas, a2.tiles = a.tiles →
      a2.rules.filter (fun r => !r.auto_generated) =
        a.rules.filter (fun r => !r.auto_generated) →
      propagate_all_rules a2 = propagate_all_rules a := by
    intro a2 ht hm
    rw [propagate_all_factor, propagate_all_factor, ht, hm]
  obtain ⟨autos', hauto', hshape⟩ := foldl_keys_shape a.tiles
    (a.rules.filter (fun r => !r.auto_generated)) hdisj
    ((a.rules.filter (fun r => !r.auto_generated)).map AdjacencyRule.key)
    (fun k hk => hk) [] (by simp)
  have hPA : propagate_all_rules a =
      { tiles := a.tiles,
        rules := a.rules.filter (fun r => !r.auto_generated) ++ autos' } := by
    rw [propagate_all_factor,
      show ({ tiles := a.tiles,
              rules := a.rules.filter (fun r => !r.auto_generated) } : Atlas) =
        { tiles := a.tiles,
          rules := a.rules.filter (fun r => !r.auto_generated) ++ [] } from by
        rw [List.append_nil]]
    exact hshape
  have key2 : (propagate_all_rules a).rules.filter (fun r => !r.auto_generated) =
      a.rules.filter (fun r => !r.auto_generated) := by
    rw [hPA]
    dsimp only
    have hfilM : (a.rules.filter (fun r => !r.auto_generated)).filter
        (fun r => !r.auto_generated) =
        a.rules.filter (fun r => !r.auto_generated) :=
      List.filter_eq_self.mpr (fun r hr => by simp [hMfalse r hr])
    have hfilA : autos'.filter (fun r => !r.auto_generated) = [] :=
      List.filter_eq_nil_iff.mpr (fun r hr => by simp [hauto' r hr])
    rw [List.filter_append, hfilM, hfilA, List.append_nil]
  exact ⟨key3 (propagate_all_rules a) (by rw [hPA]) key2, key2, key3⟩

/-- Witness for `C1_propagate_all_amended` at the S3 atlas, whose single
manual rule propagates only to fresh keys. -/
theorem C1_propagate_all_witness :
    propagate_all_rules (propagate_all_rules atlas_s3) =
      propagate_all_rules atlas_s3 :=
  (C1_propagate_all_amended atlas_s3 (by decide) (by decide)).1

end WfcSuite
